import Mathlib

/-!
# Verification of the Clarke-Wright savings solver (`src/savings-solver/savings-solver.ts`)

Shallow embedding of the route-construction engine:

* `Point`s are modelled by natural-number identities (`Nat`).  In the source every
  customer becomes a fresh `Point` object (`Point.fromCustomer`), so object identity
  (`===`) corresponds to equality of these identifiers.  Coordinates and demand are
  functions of the identifier; the precomputed pairwise distances (`getDistanceTo` /
  `setDistanceTo`) are modelled by a total function `dist : Nat → Nat → ℚ`.
* A `Route`'s internal `points` array (depot stored first, customers after it) is a
  `List Nat`; the route-level operations (`getStart`, `getEnd`, `joinRoute`,
  `totalDistance`, `totalDemand`, `twoOpt`, `optimise`) are pure functions on it.
* The engine (`ClarkeWrightProblem.solve`) mutates `Route` objects through shared
  references, so it is embedded with an explicit store: route id ↦ points list.
* JavaScript numbers are modelled by `ℚ` (exact arithmetic).  The parts of the score
  that are genuinely transcendental (`Math.acos`/`Math.cos`/`Math.sqrt` inside
  `angle`) are treated separately: over `ℝ` for the cosine-law identity, and with an
  IEEE-style value type `JSNum` (with `nan`/infinities) for the NaN-handling claims.
-/

namespace CW

open scoped List

/-! ### Definitions -/

/-- `Route.getStart`: `this.points[1]`, the first non-depot point.
(Out-of-range access yields `undefined` in JS; engine routes always have
length ≥ 2, so the default value `0` is never consulted in the theorems.) -/
def getStart (pts : List Nat) : Nat := pts.getD 1 0

/-- `Route.getEnd`: `this.points[this.points.length - 1]`, the last point. -/
def getEnd (pts : List Nat) : Nat := pts.getD (pts.length - 1) 0

/-- `Route.joinRoute`: `this.points.push(...route.points.slice(1))` —
appends the other route's points minus its leading depot. -/
def joinRoute (ptsA ptsB : List Nat) : List Nat := ptsA ++ ptsB.drop 1

/-- `Route.totalDistance`: folds over the points, skipping a leg whenever the
current point equals the previous one (this is how the code skips the zero-length
first step `points[0] → points[0]`), then adds the closing leg back to the depot.
The initial `prev` is `this.points[0]` (for an empty list the code would fault;
the `headD` default is never consulted on engine routes, which are nonempty). -/
def totalDistance (d : Nat → Nat → ℚ) (dep : Nat) (pts : List Nat) : ℚ :=
  let r := pts.foldl (fun (acc : ℚ × Nat) q => if q = acc.2 then acc else (acc.1 + d acc.2 q, q))
    (0, pts.headD dep)
  r.1 + d r.2 dep

/-- `Route.totalDemand`: sum of demand over all points, counting the depot as 0. -/
def totalDemand (demand : Nat → ℚ) (dep : Nat) (pts : List Nat) : ℚ :=
  pts.foldl (fun s p => s + if p = dep then 0 else demand p) 0

/-- `ClarkeWrightProblem.verifyRouteJoin`: the estimated merged-route distance
is strictly below the distance cap.  The code reads both routes' current state,
so the embedding takes the two point lists. -/
def verifyRouteJoin (d : Nat → Nat → ℚ) (dep : Nat) (maxDistance : ℚ)
    (ptsA ptsB : List Nat) : Bool :=
  decide (totalDistance d dep ptsA - d (getEnd ptsA) dep
    + d (getEnd ptsA) (getStart ptsB)
    + totalDistance d dep ptsB - d (getStart ptsB) dep < maxDistance)

/-- `Route.twoOptSwap(i, k)`: keep `points[0..i]`, reverse `points[i+1..k]`,
keep `points[k+1..]` (JS `slice(0, i+1) ++ slice(i+1, k+1).reverse() ++ slice(k+1)`). -/
def twoOptSwap (i k : Nat) (pts : List Nat) : List Nat :=
  pts.take (i + 1) ++ ((pts.drop (i + 1)).take (k - i)).reverse ++ pts.drop (k + 1)

/-- The comparison in the inner loop of `twoOpt`:
`points[i]→points[i+1] + points[j]→points[j+1] > points[i]→points[j] + points[j+1]→points[i+1]`. -/
def twoOptInnerCond (d : Nat → Nat → ℚ) (pts : List Nat) (i j : Nat) : Bool :=
  decide (d (pts.getD i 0) (pts.getD (i + 1) 0) + d (pts.getD j 0) (pts.getD (j + 1) 0) >
    d (pts.getD i 0) (pts.getD j 0) + d (pts.getD (j + 1) 0) (pts.getD (i + 1) 0))

/-- The wrap-around comparison after the inner loop of `twoOpt` (at that point the
loop variable `j` equals `points.length - 1`):
`points[i]→points[i+1] + points[j]→points[0] > points[i]→points[j] + points[0]→points[i+1]`. -/
def twoOptWrapCond (d : Nat → Nat → ℚ) (pts : List Nat) (i : Nat) : Bool :=
  decide (d (pts.getD i 0) (pts.getD (i + 1) 0) +
      d (pts.getD (pts.length - 1) 0) (pts.getD 0 0) >
    d (pts.getD i 0) (pts.getD (pts.length - 1) 0) + d (pts.getD 0 0) (pts.getD (i + 1) 0))

/-- Inner loop of `twoOpt`: scan `j` upward (from `i+2`) while `j < points.length - 1`,
returning the first `j` whose reversal improves.  The dead guard `j - i === 1` of the
source (never true since `j` starts at `i+2`) is kept faithfully. -/
def findJ (d : Nat → Nat → ℚ) (pts : List Nat) (i j : Nat) : Option Nat :=
  if h : j < pts.length - 1 then
    if j - i = 1 then findJ d pts i (j + 1)
    else if twoOptInnerCond d pts i j then some j
    else findJ d pts i (j + 1)
  else none
termination_by pts.length - 1 - j
decreasing_by all_goals omega

/-- Outer loop of `twoOpt` over `i < points.length - 2`.  A successful comparison
performs the swap and returns the new total distance immediately (first-improvement);
otherwise the wrap-around edge is tested with `j = points.length - 1`, and finally
`i` advances. -/
def twoOptGo (d : Nat → Nat → ℚ) (dep : Nat) (pts : List Nat) (i : Nat) : List Nat × ℚ :=
  if h : i < pts.length - 2 then
    match findJ d pts i (i + 2) with
    | some j => let p := twoOptSwap i j pts; (p, totalDistance d dep p)
    | none =>
      if twoOptWrapCond d pts i then
        let p := twoOptSwap i (pts.length - 1) pts; (p, totalDistance d dep p)
      else twoOptGo d dep pts (i + 1)
  else (pts, totalDistance d dep pts)
termination_by pts.length - 2 - i
decreasing_by all_goals omega

/-- `Route.twoOpt`: returns the (possibly swapped) points and the total distance
the method returns. -/
def twoOpt (d : Nat → Nat → ℚ) (dep : Nat) (pts : List Nat) : List Nat × ℚ :=
  twoOptGo d dep pts 0

/-- `Route.optimise(maxIter)` loop body, also counting the number of `twoOpt`
passes performed: `bestDistance` starts at `0`; each pass runs `twoOpt` and stops
when the returned distance equals the previous one. -/
def optimiseAux (d : Nat → Nat → ℚ) (dep : Nat) :
    ℚ → Nat → List Nat → List Nat × Nat
  | _, 0, pts => (pts, 0)
  | best, fuel + 1, pts =>
    let r := twoOpt d dep pts
    if r.2 = best then (r.1, 1)
    else
      let s := optimiseAux d dep r.2 fuel r.1
      (s.1, s.2 + 1)

/-- `Route.optimise(maxIter = 100)`: the resulting points list. -/
def optimise (d : Nat → Nat → ℚ) (dep : Nat) (maxIter : Nat) (pts : List Nat) : List Nat :=
  (optimiseAux d dep 0 maxIter pts).1

/-- Sum of the distances along consecutive pairs of a list. -/
def legs (d : Nat → Nat → ℚ) : List Nat → ℚ
  | [] => 0
  | [_] => 0
  | a :: b :: rest => d a b + legs d (b :: rest)

/-- A route is locally optimal for 2-opt when no comparison made by `twoOpt`
fires: every inner-loop comparison and every wrap-around comparison is `≤`
(i.e. the strict `>` test is false). -/
def locallyOptimal (d : Nat → Nat → ℚ) (pts : List Nat) : Prop :=
  (∀ i j, i < pts.length - 2 → i + 2 ≤ j → j < pts.length - 1 →
    twoOptInnerCond d pts i j = false) ∧
  (∀ i, i < pts.length - 2 → twoOptWrapCond d pts i = false)

/-- Problem data: `ClarkeWrightProblemOptions` after construction.  `customers`
is the randomised point order produced by the constructor (each customer is a
fresh `Point` object, so object identity is identity of these numbers), `dist`
is the precomputed distance table (`getDistanceTo`). -/
structure CWProb where
  depot : Nat
  customers : List Nat
  dist : Nat → Nat → ℚ
  demand : Nat → ℚ
  maxDistance : ℚ

/-- The weight configuration of a `solve` call.  `calculateSavings` evaluates a
fixed arithmetic formula (involving `Math.acos`/`Math.cos`/`Math.sqrt`, i.e.
transcendental real functions) of the two junction endpoints and the problem
constants; its value is abstracted here as `score A_end B_start`, since the
engine uses scores only through comparisons.  The numeric formula itself is
analysed separately (`angle` over `ℝ` below, and the `JSNum` model for NaN). -/
structure CWWeights where
  score : Nat → Nat → ℚ
  minSavings : ℚ

/-- A savings-list entry `{routeA, routeB, savings}` (route ids). -/
structure SEntry where
  routeA : Nat
  routeB : Nat
  savings : ℚ
deriving DecidableEq

/-- The mutable state of `ClarkeWrightProblem` during `solve`:
route store, `this.solutions` (ids), `this.joinedRoutes`, `this.savings`. -/
structure Engine where
  store : List (List Nat)
  solutions : List Nat
  joined : List Nat
  savings : List SEntry
deriving DecidableEq

/-- Dereference a route id (reads the route's current `points`). -/
def getRoute (st : Engine) (id : Nat) : List Nat := st.store.getD id []

/-- `this.solutions.splice(this.solutions.indexOf(routeB), 1)`: removes the
first occurrence; when the element is absent, `indexOf` gives `-1` and
`splice(-1, 1)` removes the *last* element.  (Under the engine invariant the
element is always present.) -/
def spliceRemove (l : List Nat) (b : Nat) : List Nat :=
  if b ∈ l then l.erase b else l.dropLast

/-- `ClarkeWrightProblem.joinRoutes`: re-verifies feasibility, then lets
`routeA` absorb `routeB`'s customers, marks both ids joined, and removes
`routeB` from the active set.  Only `routeA`'s store entry is written. -/
def joinRoutes (p : CWProb) (st : Engine) (a b : Nat) : Engine :=
  if verifyRouteJoin p.dist p.depot p.maxDistance (getRoute st a) (getRoute st b) then
    { store := st.store.set a (joinRoute (getRoute st a) (getRoute st b)),
      solutions := spliceRemove st.solutions b,
      joined := a :: b :: st.joined,
      savings := st.savings }
  else st

/-- One iteration of the `for (const savings of this.savings)` body: the main
merge branch plus the two endpoint-identity fallback branches against
`this.solutions[0]`. -/
def processEntry (p : CWProb) (e : SEntry) (st : Engine) : Engine :=
  if e.routeA ∉ st.joined ∧ e.routeB ∉ st.joined then
    joinRoutes p st e.routeA e.routeB
  else if e.routeA ∉ st.joined then
    if st.solutions ≠ [] ∧
        getStart (getRoute st (st.solutions.headD 0)) = getStart (getRoute st e.routeB) then
      joinRoutes p st e.routeA (st.solutions.headD 0)
    else st
  else if e.routeB ∉ st.joined then
    if st.solutions ≠ [] ∧
        getEnd (getRoute st (st.solutions.headD 0)) = getEnd (getRoute st e.routeA) then
      joinRoutes p st (st.solutions.headD 0) e.routeB
    else st
  else st

/-- The whole `for (const savings of this.savings)` loop (the array iterated is
the snapshot taken at loop entry; `joinRoutes` never touches `this.savings`). -/
def processSavings (p : CWProb) : List SEntry → Engine → Engine
  | [], st => st
  | e :: rest, st => processSavings p rest (processEntry p e st)

/-- The body of the inner `forEach` of `findAllRouteSavingsPairs` for the pair
(`route = r`, `otherRoute = o`): evaluate both orientations, keep the better
one, discard below `minSavings` or when infeasible. -/
def mkEntry (p : CWProb) (w : CWWeights) (st : Engine) (r o : Nat) : Option SEntry :=
  let sAB := w.score (getEnd (getRoute st r)) (getStart (getRoute st o))
  let sBA := w.score (getEnd (getRoute st o)) (getStart (getRoute st r))
  let a := if sBA < sAB then r else o
  let b := if sBA < sAB then o else r
  let s := max sAB sBA
  if s < w.minSavings then none
  else if verifyRouteJoin p.dist p.depot p.maxDistance (getRoute st a) (getRoute st b) then
    some ⟨a, b, s⟩
  else none

/-- `ClarkeWrightProblem.findAllRouteSavingsPairs`: the full ordered double loop
over `this.solutions` (skipping `otherRoute === route`), then sort descending by
savings (`(a, b) => b.savings - a.savings`). -/
def findAllRouteSavingsPairs (p : CWProb) (w : CWWeights) (st : Engine) : List SEntry :=
  ((st.solutions.map (fun r =>
      st.solutions.filterMap (fun o => if o = r then none else mkEntry p w st r o))).flatten).mergeSort
    (fun x y => decide (y.savings ≤ x.savings))

/-- `this.solutions.forEach(solution => solution.optimise())`. -/
def optimiseAll (p : CWProb) (st : Engine) : Engine :=
  { st with
    store := st.solutions.foldl
      (fun s id => s.set id (optimise p.dist p.depot 100 (s.getD id []))) st.store }

/-- One iteration of the `while (this.savings.length)` loop body. -/
def roundStep (p : CWProb) (w : CWWeights) (opt : Bool) (st : Engine) : Engine :=
  let st1 := processSavings p st.savings st
  let st2 := if opt then optimiseAll p st1 else st1
  { st2 with joined := [], savings := findAllRouteSavingsPairs p w st2 }

/-- The `while (this.savings.length)` loop, fuelled.  Every productive round
merges at least one pair (the top-ranked entry re-verifies successfully since
nothing changed since the savings were computed), so `customers.length` rounds
always suffice; the claims proved below hold for every fuel value. -/
def solveLoop (p : CWProb) (w : CWWeights) (opt : Bool) : Nat → Engine → Engine
  | 0, st => st
  | fuel + 1, st =>
    if st.savings = [] then st else solveLoop p w opt fuel (roundStep p w opt st)

/-- The state after `this.solutions = this.points.map(point => new Route(point,
this.depot))`: one singleton route per customer, ids `0, 1, …`. -/
def initState (p : CWProb) : Engine :=
  { store := p.customers.map (fun c => [p.depot, c]),
    solutions := List.range p.customers.length,
    joined := [],
    savings := [] }

/-- The state right after the first `findAllRouteSavingsPairs` call in `solve`. -/
def startState (p : CWProb) (w : CWWeights) : Engine :=
  { initState p with savings := findAllRouteSavingsPairs p w (initState p) }

/-- `ClarkeWrightProblem.solve`: run the merge loop, then filter out routes not
strictly below the distance cap and sort descending by demand density
(`(a, b) => b.totalDemand()/b.totalDistance() - a.totalDemand()/a.totalDistance()`).
The returned routes are given by their point sequences. -/
def solve (p : CWProb) (w : CWWeights) (opt : Bool) : List (List Nat) :=
  let stF := solveLoop p w opt p.customers.length (startState p w)
  ((stF.solutions.map (fun id => getRoute stF id)).filter
      (fun pts => decide (totalDistance p.dist p.depot pts < p.maxDistance))).mergeSort
    (fun x y => decide (totalDemand p.demand p.depot y / totalDistance p.dist p.depot y ≤
      totalDemand p.demand p.depot x / totalDistance p.dist p.depot x))

/-- The customer part of a route: its points after the leading depot. -/
def routeTail (st : Engine) (id : Nat) : List Nat := (getRoute st id).drop 1

/-- A route in canonical engine form: the depot first, then at least one customer. -/
def routeForm (p : CWProb) (st : Engine) (id : Nat) : Prop :=
  ∃ t, getRoute st id = p.depot :: t ∧ t ≠ []

/-- The partition property: the active routes' customer tails, concatenated,
are a permutation of the customer set (every customer in exactly one route). -/
def partitionHolds (p : CWProb) (st : Engine) : Prop :=
  ((st.solutions.map (routeTail st)).flatten).Perm p.customers

/-- The structural part of the merge-loop invariant. -/
structure CoreInv (p : CWProb) (st : Engine) : Prop where
  nodupSol : st.solutions.Nodup
  bound : ∀ id ∈ st.solutions, id < st.store.length
  form : ∀ id ∈ st.solutions, routeForm p st id
  partition : partitionHolds p st

/-- The full merge-loop invariant: the partition of customers by active routes,
plus bookkeeping about marked (`joinedRoutes`) ids — every marked route's
customers live inside some marked *active* route — and about the savings list —
entries pair distinct ids, unmarked entry ids are still active, and entry routes
keep the canonical form. -/
structure EngineInv (p : CWProb) (st : Engine) extends CoreInv p st : Prop where
  marked : ∀ m ∈ st.joined, ∃ z, z ∈ st.solutions ∧ z ∈ st.joined ∧
    ∀ x ∈ routeTail st m, x ∈ routeTail st z
  savOk : ∀ e ∈ st.savings, e.routeA ≠ e.routeB ∧
    (e.routeA ∉ st.joined → e.routeA ∈ st.solutions) ∧
    (e.routeB ∉ st.joined → e.routeB ∈ st.solutions) ∧
    routeForm p st e.routeA ∧ routeForm p st e.routeB

/-- The argument of the inverse cosine in `ClarkeWrightProblem.angle`: with
`a = (p1.x − p0.x)² + (p1.y − p0.y)²`, `b = (p1.x − p2.x)² + (p1.y − p2.y)²`,
`c = (p2.x − p0.x)² + (p2.y − p0.y)²` (the squared pairwise distances), the
cosine-law ratio `(a + b − c) / √(4ab)`.  Points are coordinate pairs; the
computation is real-valued (`Math.pow`, `Math.sqrt` on floats), hence over `ℝ`
and `noncomputable`, exactly as the source's transcendental arithmetic. -/
noncomputable def cosLawRatio (p0 p1 p2 : ℝ × ℝ) : ℝ :=
  let a := (p1.1 - p0.1) ^ 2 + (p1.2 - p0.2) ^ 2
  let b := (p1.1 - p2.1) ^ 2 + (p1.2 - p2.2) ^ 2
  let c := (p2.1 - p0.1) ^ 2 + (p2.2 - p0.2) ^ 2
  (a + b - c) / Real.sqrt (4 * a * b)

/-- `ClarkeWrightProblem.angle`:
`Math.cos(Math.acos((a + b - c) / Math.sqrt(4 * a * b)))`. -/
noncomputable def angle (p0 p1 p2 : ℝ × ℝ) : ℝ :=
  Real.cos (Real.arccos (cosLawRatio p0 p1 p2))

/-- A concrete single-customer problem used as a witness instance:
depot `0`, customer `1`, unit distances, unit demand, distance cap `10`. -/
def exProb : CWProb := ⟨0, [1], fun _ _ => 1, fun _ => 1, 10⟩

/-- A concrete weight configuration used as a witness instance. -/
def exWeights : CWWeights := ⟨fun _ _ => 0, 0⟩

/-! #### IEEE-style number model for the NaN-handling claims

The savings score is computed with JavaScript floating-point arithmetic; its
`NaN` behaviour (the subject of C3) is not expressible over `ℚ`.  `JSNum`
models a JS number as an exact rational, `±Infinity`, or `NaN`, with the IEEE
comparison/propagation rules the engine relies on (`NaN` makes every `<`
comparison false, arithmetic and `Math.max` propagate `NaN`).  Negative zero is
not distinguished; it can only affect which infinity a division by zero yields,
and every such value becomes `NaN` once it reaches the inverse cosine. -/
inductive JSNum where
  | num (q : ℚ)
  | posInf
  | negInf
  | nan
deriving DecidableEq

def JSNum.neg : JSNum → JSNum
  | num q => num (-q)
  | posInf => negInf
  | negInf => posInf
  | nan => nan

def JSNum.add : JSNum → JSNum → JSNum
  | nan, _ => nan
  | _, nan => nan
  | num a, num b => num (a + b)
  | num _, posInf => posInf
  | num _, negInf => negInf
  | posInf, num _ => posInf
  | negInf, num _ => negInf
  | posInf, posInf => posInf
  | negInf, negInf => negInf
  | posInf, negInf => nan
  | negInf, posInf => nan

def JSNum.sub (x y : JSNum) : JSNum := JSNum.add x (JSNum.neg y)

def JSNum.mul : JSNum → JSNum → JSNum
  | nan, _ => nan
  | _, nan => nan
  | num a, num b => num (a * b)
  | num a, posInf => if a = 0 then nan else if 0 < a then posInf else negInf
  | num a, negInf => if a = 0 then nan else if 0 < a then negInf else posInf
  | posInf, num b => if b = 0 then nan else if 0 < b then posInf else negInf
  | negInf, num b => if b = 0 then nan else if 0 < b then negInf else posInf
  | posInf, posInf => posInf
  | posInf, negInf => negInf
  | negInf, posInf => negInf
  | negInf, negInf => posInf

def JSNum.div : JSNum → JSNum → JSNum
  | nan, _ => nan
  | _, nan => nan
  | num a, num b =>
    if b = 0 then (if a = 0 then nan else if 0 < a then posInf else negInf)
    else num (a / b)
  | num _, posInf => num 0
  | num _, negInf => num 0
  | posInf, num b => if 0 ≤ b then posInf else negInf
  | negInf, num b => if 0 ≤ b then negInf else posInf
  | posInf, posInf => nan
  | posInf, negInf => nan
  | negInf, posInf => nan
  | negInf, negInf => nan

/-- The JS `<` comparison: any comparison involving `NaN` is false. -/
def JSNum.lt : JSNum → JSNum → Bool
  | nan, _ => false
  | _, nan => false
  | num a, num b => decide (a < b)
  | num _, posInf => true
  | num _, negInf => false
  | posInf, num _ => false
  | negInf, num _ => true
  | posInf, posInf => false
  | negInf, negInf => false
  | posInf, negInf => false
  | negInf, posInf => true

/-- `Math.max`: `NaN` if either argument is `NaN`, otherwise the larger. -/
def JSNum.max (x y : JSNum) : JSNum :=
  if x = JSNum.nan ∨ y = JSNum.nan then JSNum.nan
  else if JSNum.lt x y then y else x

/-- `Math.abs` extended to the special values. -/
def JSNum.abs : JSNum → JSNum
  | num q => num |q|
  | posInf => posInf
  | negInf => posInf
  | nan => nan

instance : Neg JSNum := ⟨JSNum.neg⟩

instance : Add JSNum := ⟨JSNum.add⟩

instance : Sub JSNum := ⟨JSNum.sub⟩

instance : Mul JSNum := ⟨JSNum.mul⟩

instance : Div JSNum := ⟨JSNum.div⟩

/-- Problem data for the `JSNum` model of the scoring pipeline.  Distances are
the exact values of the precomputed table; the constants computed at
construction (`maxPointDistance`, `averageDemand`, `maxDemand`) are `JSNum`s
because they can be `NaN`/`-Infinity` on degenerate inputs; `ang` is the value
of the `angle` method (`Math.cos(Math.acos(…))` — transcendental, hence a
parameter; the claim under study is conditional on it being `NaN`, and
`acosArgOutOfDomain` below decides, from exact coordinates, when that happens). -/
structure JSProb where
  depot : Nat
  dist : Nat → Nat → ℚ
  demand : Nat → ℚ
  maxDistance : ℚ
  maxPointDistance : JSNum
  averageDemand : JSNum
  maxDemand : JSNum
  ang : Nat → Nat → Nat → JSNum

/-- The four weights of `CWWeights` (plain numeric inputs). -/
structure JSWeights where
  adjacency : ℚ
  asymmetry : ℚ
  demand : ℚ
  minSavings : ℚ

/-- A savings entry of the `JSNum` pipeline. -/
structure SEntryJS where
  routeA : Nat
  routeB : Nat
  savings : JSNum
deriving DecidableEq

/-- `ClarkeWrightProblem.calculateSavings` over `JSNum`:
adjacency + asymmetry + demand terms, exactly as in the source. -/
def calculateSavingsJS (p : JSProb) (w : JSWeights) (ptsA ptsB : List Nat) : JSNum :=
  let cA := getEnd ptsA
  let cB := getStart ptsB
  let distDA := JSNum.num (p.dist p.depot cA)
  let distDB := JSNum.num (p.dist p.depot cB)
  let distAB := JSNum.num (p.dist cA cB)
  let savingsAdjacency := (distDA + distDB - JSNum.num w.adjacency * distAB) /
    p.maxPointDistance
  let savingsAsymmetry := JSNum.num w.asymmetry *
    (p.ang cA p.depot cB *
      JSNum.abs (p.maxPointDistance - (distDA - distDB) / JSNum.num 2)) /
    p.maxPointDistance
  let savingsDemand := JSNum.num w.demand *
    JSNum.abs (p.averageDemand -
      (JSNum.num (p.demand cA) + JSNum.num (p.demand cB)) / JSNum.num 2) /
    p.maxDemand
  savingsAdjacency + savingsAsymmetry + savingsDemand

/-- `const a = savingsAB > savingsBA ? route : otherRoute` (for `route = r`,
`otherRoute = o`; `x > y` is `y < x`). -/
def savingsOrientA (p : JSProb) (w : JSWeights) (store : List (List Nat)) (r o : Nat) : Nat :=
  if JSNum.lt (calculateSavingsJS p w (store.getD o []) (store.getD r []))
      (calculateSavingsJS p w (store.getD r []) (store.getD o [])) then r else o

/-- `const b = (a === route ? otherRoute : route)`. -/
def savingsOrientB (p : JSProb) (w : JSWeights) (store : List (List Nat)) (r o : Nat) : Nat :=
  if JSNum.lt (calculateSavingsJS p w (store.getD o []) (store.getD r []))
      (calculateSavingsJS p w (store.getD r []) (store.getD o [])) then o else r

/-- The inner `forEach` body of `findAllRouteSavingsPairs` over `JSNum` scores:
keep the better orientation, discard when `savings < minSavings` (note: false
for a `NaN` score) or when the join is infeasible. -/
def mkEntryJS (p : JSProb) (w : JSWeights) (store : List (List Nat)) (r o : Nat) :
    Option SEntryJS :=
  let sAB := calculateSavingsJS p w (store.getD r []) (store.getD o [])
  let sBA := calculateSavingsJS p w (store.getD o []) (store.getD r [])
  let a := savingsOrientA p w store r o
  let b := savingsOrientB p w store r o
  let s := JSNum.max sAB sBA
  if JSNum.lt s (JSNum.num w.minSavings) then none
  else if verifyRouteJoin p.dist p.depot p.maxDistance (store.getD a []) (store.getD b []) then
    some ⟨a, b, s⟩
  else none

/-- `findAllRouteSavingsPairs` over `JSNum` scores.  The final sort's JS
comparator `(a, b) => b.savings - a.savings` is inconsistent when `NaN` scores
are present, so ECMAScript leaves the resulting order implementation-defined
(elements are always retained); the model fixes one permutation via `mergeSort`
on the non-strict descending test.  C3 concerns only membership, which is the
same for every permutation. -/
def findAllRouteSavingsPairsJS (p : JSProb) (w : JSWeights) (store : List (List Nat))
    (sols : List Nat) : List SEntryJS :=
  ((sols.map (fun r =>
      sols.filterMap (fun o => if o = r then none else mkEntryJS p w store r o))).flatten).mergeSort
    (fun x y => ! JSNum.lt x.savings y.savings)

/-- Whether the argument passed to `Math.acos` by `angle` falls outside
`[-1, 1]` (including the division-by-zero cases), computed from exact
coordinates: with `a`, `b`, `c` the squared distances of `angle`, this holds iff
`4ab = 0` (the ratio is `NaN` or `±Infinity`) or `(a + b − c)² > 4ab` (the ratio
exceeds 1 in magnitude).  In every such case `Math.acos` returns `NaN`, hence so
does `angle`. -/
def acosArgOutOfDomain (x0 y0 x1 y1 x2 y2 : ℚ) : Bool :=
  let a := (x1 - x0) ^ 2 + (y1 - y0) ^ 2
  let b := (x1 - x2) ^ 2 + (y1 - y2) ^ 2
  let c := (x2 - x0) ^ 2 + (y2 - y0) ^ 2
  decide (4 * a * b = 0 ∨ (a + b - c) ^ 2 > 4 * a * b)

/-- A concrete two-customer problem on which the angle computation yields `NaN`:
customer `1` sits at the depot's coordinates `(0, 0)` and customer `2` at
`(1, 0)`, so the squared distance `a` (or `b`) at the depot vertex is `0` and
`angle` computes `acos(0/0) = NaN` in both orientations (`acosArgOutOfDomain`
witnesses this below); `ang` is accordingly `NaN` everywhere it is called. -/
def nanProb : JSProb :=
  ⟨0, (fun x y => if x = y then 0 else 1), (fun _ => 1), 10,
    JSNum.num 1, JSNum.num 1, JSNum.num 1, fun _ _ _ => JSNum.nan⟩

/-- Weights for the `NaN` scenario. -/
def nanWeights : JSWeights := ⟨1, 1, 1, 0⟩

/-- The two singleton routes of the `NaN` scenario. -/
def nanStore : List (List Nat) := [[0, 1], [0, 2]]

/-! ### Lemmas and theorems -/

lemma legs_cons_cons (d : Nat → Nat → ℚ) (a b : Nat) (l : List Nat) :
    legs d (a :: b :: l) = d a b + legs d (b :: l) := rfl

/-- The fold inside `totalDistance` never skips once consecutive points are distinct. -/
lemma foldl_dist_eq_legs (d : Nat → Nat → ℚ) :
    ∀ (l : List Nat) (p : Nat) (c : ℚ), List.Chain' Ne (p :: l) →
    (l.foldl (fun (acc : ℚ × Nat) q => if q = acc.2 then acc else (acc.1 + d acc.2 q, q)) (c, p))
      = (c + legs d (p :: l), (p :: l).getLast (by simp))
  | [], p, c, _ => by simp [legs]
  | q :: l, p, c, h => by
    rw [List.chain'_cons] at h
    have hpq : q ≠ p := fun e => h.1 e.symm
    have ih := foldl_dist_eq_legs d l q (c + d p q) h.2
    simp only [List.foldl_cons, if_neg hpq]
    rw [ih, legs_cons_cons]
    have hlast : (p :: q :: l).getLast (by simp) = (q :: l).getLast (by simp) :=
      List.getLast_cons (by simp)
    rw [hlast]
    congr 1
    ring

/-- On a list with no equal consecutive entries, `totalDistance` is the sum of all
leg distances plus the closing leg from the last point to the depot. -/
lemma totalDistance_eq_legs (d : Nat → Nat → ℚ) (dep : Nat) (p : Nat) (l : List Nat)
    (h : List.Chain' Ne (p :: l)) :
    totalDistance d dep (p :: l) =
      legs d (p :: l) + d ((p :: l).getLast (by simp)) dep := by
  have h0 := foldl_dist_eq_legs d l p 0 h
  unfold totalDistance
  dsimp only [List.headD_cons, List.foldl_cons]
  rw [if_pos rfl, h0]
  dsimp only
  ring

/-- `legs` over an append splits at the junction. -/
lemma legs_append (d : Nat → Nat → ℚ) :
    ∀ (l₁ : List Nat) (h₁ : l₁ ≠ []) (l₂ : List Nat) (h₂ : l₂ ≠ []),
    legs d (l₁ ++ l₂) = legs d l₁ + d (l₁.getLast h₁) (l₂.head h₂) + legs d l₂
  | [], h₁, _, _ => absurd rfl h₁
  | [a], _, l₂, h₂ => by
    cases l₂ with
    | nil => exact absurd rfl h₂
    | cons b l => simp [legs]
  | a :: b :: l₁, _, l₂, h₂ => by
    have ih := legs_append d (b :: l₁) (by simp) l₂ h₂
    have hlast : (a :: b :: l₁).getLast (by simp) = (b :: l₁).getLast (by simp) :=
      List.getLast_cons (by simp)
    simp only [List.cons_append] at ih ⊢
    rw [legs_cons_cons, legs_cons_cons, ih, hlast]
    ring

lemma getEnd_eq_getLast (pts : List Nat) (h : pts ≠ []) : getEnd pts = pts.getLast h := by
  have hl : pts.length - 1 < pts.length := by
    cases pts with
    | nil => exact absurd rfl h
    | cons a l => simp
  unfold getEnd
  rw [List.getD_eq_getElem?_getD, List.getElem?_eq_getElem hl, Option.getD_some,
    List.getLast_eq_getElem]

lemma getStart_cons (dep b : Nat) (l : List Nat) : getStart (dep :: b :: l) = b := rfl

lemma legs_cons_of_ne_nil (d : Nat → Nat → ℚ) (a : Nat) (l : List Nat) (h : l ≠ []) :
    legs d (a :: l) = d a (l.head h) + legs d l := by
  cases l with
  | nil => exact absurd rfl h
  | cons b t => rfl

/-- **C4.** `verifyRouteJoin` returns `true` iff the merged-distance estimate
`routeA.totalDistance() − distance(A_end, depot) + distance(A_end, B_start)
 + routeB.totalDistance() − distance(depot, B_start)` is strictly less than
`maxDistance`: the feasibility check is exactly this strict comparison. -/
theorem verifyRouteJoin_iff (d : Nat → Nat → ℚ) (dep : Nat) (maxDistance : ℚ)
    (ptsA ptsB : List Nat) :
    verifyRouteJoin d dep maxDistance ptsA ptsB = true ↔
      totalDistance d dep ptsA - d (getEnd ptsA) dep
        + d (getEnd ptsA) (getStart ptsB)
        + totalDistance d dep ptsB - d (getStart ptsB) dep < maxDistance := by
  unfold verifyRouteJoin
  exact decide_eq_true_iff

/-- **C5.** For routes of the form built by the engine (depot first, at least one
customer, no repeated consecutive points) with symmetric distances and distinct
junction endpoints, the total distance of the route produced by
`routeA.joinRoute(routeB)` — before any re-optimisation — equals the pre-merge
feasibility estimate of `verifyRouteJoin`, exactly. -/
theorem joinRoute_totalDistance_eq_estimate (d : Nat → Nat → ℚ) (dep : Nat)
    (as bs : List Nat) (ha : as ≠ []) (hb : bs ≠ [])
    (hA : List.Chain' Ne (dep :: as)) (hB : List.Chain' Ne (dep :: bs))
    (hlink : getEnd (dep :: as) ≠ getStart (dep :: bs))
    (hsym : ∀ x y, d x y = d y x) :
    totalDistance d dep (joinRoute (dep :: as) (dep :: bs)) =
      totalDistance d dep (dep :: as) - d (getEnd (dep :: as)) dep
        + d (getEnd (dep :: as)) (getStart (dep :: bs))
        + totalDistance d dep (dep :: bs) - d (getStart (dep :: bs)) dep := by
  have hbs1 : getStart (dep :: bs) = bs.head hb := by
    cases bs with
    | nil => exact absurd rfl hb
    | cons x t => rfl
  have hlastA : getEnd (dep :: as) = (dep :: as).getLast (by simp) :=
    getEnd_eq_getLast _ (by simp)
  -- the appended list `dep :: as ++ bs` has no equal consecutive points
  have hchain : List.Chain' Ne ((dep :: as) ++ bs) := by
    rw [List.chain'_append]
    refine ⟨hA, hB.tail, ?_⟩
    intro x hx y hy
    rw [List.getLast?_eq_getLast _ (by simp : (dep :: as) ≠ [])] at hx
    rw [List.head?_eq_head hb] at hy
    simp only [Option.mem_def, Option.some.injEq] at hx hy
    subst hx; subst hy
    rw [← hlastA, ← hbs1]
    exact hlink
  have hjoin : joinRoute (dep :: as) (dep :: bs) = (dep :: as) ++ bs := by
    simp [joinRoute]
  have htotJ : totalDistance d dep ((dep :: as) ++ bs) =
      legs d ((dep :: as) ++ bs) + d (((dep :: as) ++ bs).getLast (by simp)) dep := by
    have := totalDistance_eq_legs d dep dep (as ++ bs) (by simpa using hchain)
    simpa using this
  have htotA : totalDistance d dep (dep :: as) =
      legs d (dep :: as) + d ((dep :: as).getLast (by simp)) dep :=
    totalDistance_eq_legs d dep dep as hA
  have htotB : totalDistance d dep (dep :: bs) =
      legs d (dep :: bs) + d ((dep :: bs).getLast (by simp)) dep :=
    totalDistance_eq_legs d dep dep bs hB
  have hsplit : legs d ((dep :: as) ++ bs) =
      legs d (dep :: as) + d ((dep :: as).getLast (by simp)) (bs.head hb) + legs d bs :=
    legs_append d (dep :: as) (by simp) bs hb
  have hlegsB : legs d (dep :: bs) = d dep (bs.head hb) + legs d bs :=
    legs_cons_of_ne_nil d dep bs hb
  have hlastJ : ((dep :: as) ++ bs).getLast (by simp) = (dep :: bs).getLast (by simp) := by
    rw [List.getLast_append_of_ne_nil hb, List.getLast_cons hb]
  rw [hjoin, htotJ, hsplit, hlastJ, htotA, htotB, hlastA, hbs1, hlegsB,
    hsym (bs.head hb) dep]
  ring

/-- Witness for C5 at a concrete input: depot `0`, routes `[0, 1]` and `[0, 2]`,
constant distance `1`. -/
theorem joinRoute_totalDistance_eq_estimate_witness :
    totalDistance (fun _ _ => (1 : ℚ)) 0 (joinRoute [0, 1] [0, 2]) =
      totalDistance (fun _ _ => (1 : ℚ)) 0 [0, 1]
        - (fun _ _ => (1 : ℚ)) (getEnd [0, 1]) 0
        + (fun _ _ => (1 : ℚ)) (getEnd [0, 1]) (getStart [0, 2])
        + totalDistance (fun _ _ => (1 : ℚ)) 0 [0, 2]
        - (fun _ _ => (1 : ℚ)) (getStart [0, 2]) 0 :=
  joinRoute_totalDistance_eq_estimate (fun _ _ => (1 : ℚ)) 0 [1] [2]
    (by decide) (by decide)
    (List.chain'_cons.mpr ⟨by decide, by simp⟩)
    (List.chain'_cons.mpr ⟨by decide, by simp⟩)
    (by decide) (fun _ _ => rfl)

/-- If no inner comparison from `j0` upward fires, the inner loop finds nothing. -/
lemma findJ_eq_none (d : Nat → Nat → ℚ) (pts : List Nat) (i : Nat) :
    ∀ (n j0 : Nat), pts.length - 1 - j0 ≤ n →
    (∀ j, j0 ≤ j → j < pts.length - 1 → twoOptInnerCond d pts i j = false) →
    findJ d pts i j0 = none := by
  intro n
  induction n with
  | zero =>
    intro j0 hle _
    rw [findJ, dif_neg (by omega)]
  | succ n ih =>
    intro j0 hle hno
    rw [findJ]
    by_cases hj : j0 < pts.length - 1
    · rw [dif_pos hj]
      by_cases h1 : j0 - i = 1
      · rw [if_pos h1]
        exact ih (j0 + 1) (by omega) (fun j hj1 hj2 => hno j (by omega) hj2)
      · rw [if_neg h1, hno j0 le_rfl hj]
        simp only [Bool.false_eq_true, if_false]
        exact ih (j0 + 1) (by omega) (fun j hj1 hj2 => hno j (by omega) hj2)
    · rw [dif_neg hj]

/-- Any index the inner loop returns lies at or above the start index. -/
lemma findJ_some_ge (d : Nat → Nat → ℚ) (pts : List Nat) (i : Nat) :
    ∀ (n j0 j : Nat), pts.length - 1 - j0 ≤ n →
    findJ d pts i j0 = some j → j0 ≤ j := by
  intro n
  induction n with
  | zero =>
    intro j0 j hle hfind
    rw [findJ, dif_neg (by omega)] at hfind
    exact absurd hfind (by simp)
  | succ n ih =>
    intro j0 j hle hfind
    rw [findJ] at hfind
    by_cases hj : j0 < pts.length - 1
    · rw [dif_pos hj] at hfind
      by_cases h1 : j0 - i = 1
      · rw [if_pos h1] at hfind
        have := ih (j0 + 1) j (by omega) hfind
        omega
      · rw [if_neg h1] at hfind
        by_cases hc : twoOptInnerCond d pts i j0
        · rw [if_pos hc] at hfind
          simp only [Option.some.injEq] at hfind
          omega
        · rw [if_neg hc] at hfind
          have := ih (j0 + 1) j (by omega) hfind
          omega
    · rw [dif_neg hj] at hfind
      exact absurd hfind (by simp)

/-- `twoOptSwap i k` (with `i ≤ k`) permutes the points. -/
lemma twoOptSwap_perm (i k : Nat) (pts : List Nat) (hik : i ≤ k) :
    twoOptSwap i k pts ~ pts := by
  unfold twoOptSwap
  conv_rhs => rw [← List.take_append_drop (i + 1) pts]
  rw [List.append_assoc]
  refine List.Perm.append_left _ ?_
  have h2 : ((pts.drop (i + 1)).drop (k - i)) = pts.drop (k + 1) := by
    rw [List.drop_drop]
    congr 1
    omega
  calc ((pts.drop (i + 1)).take (k - i)).reverse ++ pts.drop (k + 1)
      ~ (pts.drop (i + 1)).take (k - i) ++ pts.drop (k + 1) :=
        List.Perm.append_right _ (List.reverse_perm _)
    _ = pts.drop (i + 1) := by rw [← h2, List.take_append_drop]

/-- `twoOptSwap` never moves the first element (the depot, stored at index 0). -/
lemma twoOptSwap_head? (i k : Nat) (pts : List Nat) :
    (twoOptSwap i k pts).head? = pts.head? := by
  unfold twoOptSwap
  cases pts with
  | nil => simp
  | cons a l => simp [List.take_succ_cons]

/-- The outer 2-opt loop returns a permutation of the points with the head unchanged. -/
lemma twoOptGo_perm_head (d : Nat → Nat → ℚ) (dep : Nat) (pts : List Nat) :
    ∀ (n i : Nat), pts.length - 2 - i ≤ n →
    (twoOptGo d dep pts i).1 ~ pts ∧ ((twoOptGo d dep pts i).1).head? = pts.head? := by
  intro n
  induction n with
  | zero =>
    intro i hle
    rw [twoOptGo, dif_neg (by omega)]
    exact ⟨List.Perm.refl _, rfl⟩
  | succ n ih =>
    intro i hle
    rw [twoOptGo]
    by_cases hi : i < pts.length - 2
    · rw [dif_pos hi]
      cases hfind : findJ d pts i (i + 2) with
      | some j =>
        have hj : i + 2 ≤ j := findJ_some_ge d pts i (pts.length - 1 - (i + 2)) (i + 2) j le_rfl hfind
        exact ⟨twoOptSwap_perm i j pts (by omega), twoOptSwap_head? i j pts⟩
      | none =>
        by_cases hw : twoOptWrapCond d pts i
        · rw [if_pos hw]
          exact ⟨twoOptSwap_perm i (pts.length - 1) pts (by omega),
            twoOptSwap_head? i (pts.length - 1) pts⟩
        · rw [if_neg hw]
          exact ih (i + 1) (by omega)
    · rw [dif_neg hi]
      exact ⟨List.Perm.refl _, rfl⟩

lemma twoOpt_perm_head (d : Nat → Nat → ℚ) (dep : Nat) (pts : List Nat) :
    (twoOpt d dep pts).1 ~ pts ∧ ((twoOpt d dep pts).1).head? = pts.head? :=
  twoOptGo_perm_head d dep pts (pts.length - 2) 0 (by omega)

lemma optimiseAux_perm_head (d : Nat → Nat → ℚ) (dep : Nat) :
    ∀ (fuel : Nat) (best : ℚ) (pts : List Nat),
    (optimiseAux d dep best fuel pts).1 ~ pts ∧
      ((optimiseAux d dep best fuel pts).1).head? = pts.head? := by
  intro fuel
  induction fuel with
  | zero => intro best pts; exact ⟨List.Perm.refl _, rfl⟩
  | succ n ih =>
    intro best pts
    rw [optimiseAux]
    obtain ⟨hp, hh⟩ := twoOpt_perm_head d dep pts
    by_cases he : (twoOpt d dep pts).2 = best
    · rw [if_pos he]
      exact ⟨hp, hh⟩
    · rw [if_neg he]
      obtain ⟨hp2, hh2⟩ := ih (twoOpt d dep pts).2 (twoOpt d dep pts).1
      exact ⟨hp2.trans hp, hh2.trans hh⟩

/-- `totalDemand` as a sum over the mapped list. -/
lemma totalDemand_eq_sum (demand : Nat → ℚ) (dep : Nat) (pts : List Nat) :
    totalDemand demand dep pts =
      (pts.map (fun p => if p = dep then 0 else demand p)).sum := by
  unfold totalDemand
  have key : ∀ (l : List Nat) (c : ℚ),
      l.foldl (fun s p => s + if p = dep then 0 else demand p) c =
        c + (l.map (fun p => if p = dep then 0 else demand p)).sum := by
    intro l
    induction l with
    | nil => intro c; simp
    | cons a t ih =>
      intro c
      simp only [List.foldl_cons, List.map_cons, List.sum_cons, ih]
      ring
  rw [key]
  ring

lemma totalDemand_congr_perm (demand : Nat → ℚ) (dep : Nat) {l₁ l₂ : List Nat}
    (h : l₁ ~ l₂) : totalDemand demand dep l₁ = totalDemand demand dep l₂ := by
  rw [totalDemand_eq_sum, totalDemand_eq_sum]
  exact (h.map _).sum_eq

/-- **C9.** `twoOptSwap` (as invoked, with `i ≤ k`), `twoOpt`, and `optimise` all
preserve the multiset of points of the route and keep the first element (the
depot, stored at index 0) in place; consequently `totalDemand()` is unchanged
by `optimise()`. -/
theorem optimise_preserves_points (d : Nat → Nat → ℚ) (dep : Nat) (demand : Nat → ℚ)
    (i k : Nat) (pts : List Nat) (hik : i ≤ k) :
    (twoOptSwap i k pts ~ pts ∧ (twoOptSwap i k pts).head? = pts.head?) ∧
    (∀ p, (twoOpt d dep p).1 ~ p ∧ ((twoOpt d dep p).1).head? = p.head?) ∧
    (∀ maxIter p, optimise d dep maxIter p ~ p ∧
      (optimise d dep maxIter p).head? = p.head? ∧
      totalDemand demand dep (optimise d dep maxIter p) = totalDemand demand dep p) := by
  refine ⟨⟨twoOptSwap_perm i k pts hik, twoOptSwap_head? i k pts⟩,
    fun p => twoOpt_perm_head d dep p, fun maxIter p => ?_⟩
  obtain ⟨hp, hh⟩ := optimiseAux_perm_head d dep maxIter 0 p
  exact ⟨hp, hh, totalDemand_congr_perm demand dep hp⟩

/-- Witness for C9 at concrete inputs. -/
theorem optimise_preserves_points_witness :
    (twoOptSwap 0 2 [0, 1, 2, 3] ~ [0, 1, 2, 3] ∧
      (twoOptSwap 0 2 [0, 1, 2, 3]).head? = ([0, 1, 2, 3] : List Nat).head?) ∧
    (∀ p, (twoOpt (fun _ _ => (1 : ℚ)) 0 p).1 ~ p ∧
      ((twoOpt (fun _ _ => (1 : ℚ)) 0 p).1).head? = p.head?) ∧
    (∀ maxIter p, optimise (fun _ _ => (1 : ℚ)) 0 maxIter p ~ p ∧
      (optimise (fun _ _ => (1 : ℚ)) 0 maxIter p).head? = p.head? ∧
      totalDemand (fun _ => (1 : ℚ)) 0 (optimise (fun _ _ => (1 : ℚ)) 0 maxIter p) =
        totalDemand (fun _ => (1 : ℚ)) 0 p) :=
  optimise_preserves_points (fun _ _ => (1 : ℚ)) 0 (fun _ => (1 : ℚ)) 0 2 [0, 1, 2, 3]
    (by decide)

lemma twoOptGo_of_locallyOptimal (d : Nat → Nat → ℚ) (dep : Nat) (pts : List Nat)
    (h : locallyOptimal d pts) :
    ∀ (n i : Nat), pts.length - 2 - i ≤ n →
    twoOptGo d dep pts i = (pts, totalDistance d dep pts) := by
  intro n
  induction n with
  | zero =>
    intro i hle
    rw [twoOptGo, dif_neg (by omega)]
  | succ n ih =>
    intro i hle
    rw [twoOptGo]
    by_cases hi : i < pts.length - 2
    · rw [dif_pos hi]
      have hfind : findJ d pts i (i + 2) = none :=
        findJ_eq_none d pts i (pts.length - 1 - (i + 2)) (i + 2) le_rfl
          (fun j hj1 hj2 => h.1 i j hi hj1 hj2)
      rw [hfind, if_neg (by rw [h.2 i hi]; simp)]
      exact ih (i + 1) (by omega)
    · rw [dif_neg hi]

lemma optimiseAux_fixed (d : Nat → Nat → ℚ) (dep : Nat) (pts : List Nat)
    (hfix : twoOpt d dep pts = (pts, totalDistance d dep pts)) :
    ∀ (fuel : Nat) (best : ℚ), (optimiseAux d dep best fuel pts).1 = pts := by
  intro fuel
  induction fuel with
  | zero => intro best; rfl
  | succ n ih =>
    intro best
    rw [optimiseAux, hfix]
    by_cases he : totalDistance d dep pts = best
    · rw [if_pos he]
    · rw [if_neg he]
      exact ih (totalDistance d dep pts)

/-- **C7.** On a locally optimal route (no strictly improving 2-opt reversal
exists), `twoOpt` performs no reversal — a reversal happens only when the strict
improvement test fires — and `optimise()` leaves the point order and the total
distance unchanged, for any iteration cap. -/
theorem optimise_of_locallyOptimal (d : Nat → Nat → ℚ) (dep : Nat)
    (pts : List Nat) (h : locallyOptimal d pts) :
    twoOpt d dep pts = (pts, totalDistance d dep pts) ∧
    (∀ best maxIter, (optimiseAux d dep best maxIter pts).1 = pts) ∧
    (∀ maxIter, optimise d dep maxIter pts = pts) ∧
    (∀ maxIter, totalDistance d dep (optimise d dep maxIter pts) =
      totalDistance d dep pts) := by
  have hfix : twoOpt d dep pts = (pts, totalDistance d dep pts) :=
    twoOptGo_of_locallyOptimal d dep pts h (pts.length - 2) 0 (by omega)
  have haux := optimiseAux_fixed d dep pts hfix
  refine ⟨hfix, fun best maxIter => haux maxIter best, fun maxIter => haux maxIter 0,
    fun maxIter => ?_⟩
  rw [show optimise d dep maxIter pts = pts from haux maxIter 0]

/-- Witness for C7: a singleton-customer route (too short for any 2-opt move)
is locally optimal and is left untouched by `optimise`. -/
theorem optimise_of_locallyOptimal_witness :
    twoOpt (fun _ _ => (1 : ℚ)) 0 [0, 5] =
      ([0, 5], totalDistance (fun _ _ => (1 : ℚ)) 0 [0, 5]) ∧
    (∀ best maxIter, (optimiseAux (fun _ _ => (1 : ℚ)) 0 best maxIter [0, 5]).1 = [0, 5]) ∧
    (∀ maxIter, optimise (fun _ _ => (1 : ℚ)) 0 maxIter [0, 5] = [0, 5]) ∧
    (∀ maxIter, totalDistance (fun _ _ => (1 : ℚ)) 0
        (optimise (fun _ _ => (1 : ℚ)) 0 maxIter [0, 5]) =
      totalDistance (fun _ _ => (1 : ℚ)) 0 [0, 5]) :=
  optimise_of_locallyOptimal (fun _ _ => (1 : ℚ)) 0 [0, 5]
    ⟨fun i j hi _ _ => absurd hi (by simp), fun i hi => absurd hi (by simp)⟩

/-- The number of `twoOpt` passes performed by the `optimise` loop is at most
the iteration budget. -/
lemma optimiseAux_count_le (d : Nat → Nat → ℚ) (dep : Nat) :
    ∀ (fuel : Nat) (best : ℚ) (pts : List Nat),
    (optimiseAux d dep best fuel pts).2 ≤ fuel := by
  intro fuel
  induction fuel with
  | zero => intro best pts; exact le_rfl
  | succ n ih =>
    intro best pts
    rw [optimiseAux]
    by_cases he : (twoOpt d dep pts).2 = best
    · rw [if_pos he]; omega
    · rw [if_neg he]
      dsimp only
      have := ih (twoOpt d dep pts).2 (twoOpt d dep pts).1
      omega

/-- **C6.** `Route.optimise` always terminates: it performs at most
`maxIterations` two-opt passes (second conjunct, for every route and every
distance function), and it stops as soon as a pass returns the same total
distance as the previous pass — with the budget not yet exhausted, the loop
ends right after that single pass (first conjunct). -/
theorem optimise_terminates (d : Nat → Nat → ℚ) (dep : Nat) (pts : List Nat)
    (best : ℚ) (hsame : (twoOpt d dep pts).2 = best) :
    (∀ fuel, optimiseAux d dep best (fuel + 1) pts = ((twoOpt d dep pts).1, 1)) ∧
    (∀ (best' : ℚ) (maxIter : Nat) (pts' : List Nat),
      (optimiseAux d dep best' maxIter pts').2 ≤ maxIter) := by
  refine ⟨fun fuel => ?_, fun best' maxIter pts' => optimiseAux_count_le d dep maxIter best' pts'⟩
  rw [optimiseAux, if_pos hsame]

/-- Witness for C6: on the singleton-customer route `[0, 5]` with constant unit
distances, a pass returns distance `2`; with previous distance `2` the loop
stops after that one pass. -/
theorem optimise_terminates_witness :
    (∀ fuel, optimiseAux (fun _ _ => (1 : ℚ)) 0 2 (fuel + 1) [0, 5] =
      ((twoOpt (fun _ _ => (1 : ℚ)) 0 [0, 5]).1, 1)) ∧
    (∀ (best' : ℚ) (maxIter : Nat) (pts' : List Nat),
      (optimiseAux (fun _ _ => (1 : ℚ)) 0 best' maxIter pts').2 ≤ maxIter) :=
  optimise_terminates (fun _ _ => (1 : ℚ)) 0 [0, 5] 2
    (by rw [twoOpt, twoOptGo, dif_neg (by simp)]; norm_num [totalDistance])

/-- **C1.** Every route returned by `solve` has `totalDistance()` strictly less
than the problem's `maxDistance`; equivalently, routes at or above the cap are
filtered out of the output. -/
theorem solve_distance_cap (p : CWProb) (w : CWWeights) (opt : Bool)
    (pts : List Nat) (hmem : pts ∈ solve p w opt) :
    totalDistance p.dist p.depot pts < p.maxDistance := by
  unfold solve at hmem
  rw [List.mem_mergeSort, List.mem_filter] at hmem
  exact of_decide_eq_true hmem.2

/-- Witness for C1: a single-customer problem (depot `0`, customer `1`, unit
distances, cap `10`) returns exactly the singleton route `[0, 1]`, whose total
distance `2` is below the cap. -/
theorem solve_distance_cap_witness :
    [0, 1] ∈ solve exProb exWeights false ∧
    totalDistance exProb.dist exProb.depot [0, 1] < exProb.maxDistance := by
  have hmem : [0, 1] ∈ solve exProb exWeights false := by
    have hstart : startState exProb exWeights = ⟨[[0, 1]], [0], [], []⟩ := by
      simp [exProb, exWeights, startState, initState, findAllRouteSavingsPairs, getRoute,
        List.range_succ]
    have hloop : solveLoop exProb exWeights false 1 (startState exProb exWeights) =
        ⟨[[0, 1]], [0], [], []⟩ := by
      rw [hstart]; rfl
    unfold solve
    rw [show exProb.customers.length = 1 from rfl]
    rw [hloop]
    simp [exProb, getRoute, totalDistance]
    norm_num
  exact ⟨hmem, solve_distance_cap exProb exWeights false [0, 1] hmem⟩

/-- **C10.** `joinRoutes` writes only the absorbing route's store entry: every
other route object — in particular the absorbed (retired) one — keeps its point
sequence, so its `getStart()`/`getEnd()` still return the pre-merge endpoints.
(The route's `id` and `depot` fields are immutable in the embedding by
construction: routes are identified by `id`, and all routes share the problem
depot.) -/
theorem joinRoutes_frame (p : CWProb) (st : Engine) (a b id : Nat) (hid : id ≠ a) :
    getRoute (joinRoutes p st a b) id = getRoute st id ∧
    getStart (getRoute (joinRoutes p st a b) id) = getStart (getRoute st id) ∧
    getEnd (getRoute (joinRoutes p st a b) id) = getEnd (getRoute st id) := by
  have hroute : getRoute (joinRoutes p st a b) id = getRoute st id := by
    unfold joinRoutes
    by_cases hv : verifyRouteJoin p.dist p.depot p.maxDistance (getRoute st a) (getRoute st b)
    · rw [if_pos hv]
      show (st.store.set a _).getD id [] = st.store.getD id []
      rw [List.getD_eq_getElem?_getD, List.getD_eq_getElem?_getD,
        List.getElem?_set_ne (fun h => hid h.symm)]
    · rw [if_neg hv]
  exact ⟨hroute, by rw [hroute], by rw [hroute]⟩

/-- Witness for C10: a two-route state; after route 0 absorbs route 1, the
retired route 1 still reads `[depot, 2]` with its old endpoints. -/
theorem joinRoutes_frame_witness :
    (getRoute (joinRoutes ⟨0, [1, 2], fun _ _ => 1, fun _ => 1, 10⟩
        ⟨[[0, 1], [0, 2]], [0, 1], [], []⟩ 0 1) 1 =
      getRoute ⟨[[0, 1], [0, 2]], [0, 1], [], []⟩ 1) ∧
    (getStart (getRoute (joinRoutes ⟨0, [1, 2], fun _ _ => 1, fun _ => 1, 10⟩
        ⟨[[0, 1], [0, 2]], [0, 1], [], []⟩ 0 1) 1) =
      getStart (getRoute ⟨[[0, 1], [0, 2]], [0, 1], [], []⟩ 1)) ∧
    (getEnd (getRoute (joinRoutes ⟨0, [1, 2], fun _ _ => 1, fun _ => 1, 10⟩
        ⟨[[0, 1], [0, 2]], [0, 1], [], []⟩ 0 1) 1) =
      getEnd (getRoute ⟨[[0, 1], [0, 2]], [0, 1], [], []⟩ 1)) :=
  joinRoutes_frame ⟨0, [1, 2], fun _ _ => 1, fun _ => 1, 10⟩
    ⟨[[0, 1], [0, 2]], [0, 1], [], []⟩ 0 1 1 (by decide)

/-- **C8.** Whenever the cosine-law ratio lies in `[-1, 1]`, `angle` returns
exactly that ratio: the inverse cosine immediately followed by the cosine is the
identity on `[-1, 1]`. -/
theorem angle_eq_cosLawRatio (p0 p1 p2 : ℝ × ℝ)
    (h1 : -1 ≤ cosLawRatio p0 p1 p2) (h2 : cosLawRatio p0 p1 p2 ≤ 1) :
    angle p0 p1 p2 = cosLawRatio p0 p1 p2 :=
  Real.cos_arccos h1 h2

/-- Witness for C8: for `p0 = (1,0)`, `p1 = (0,0)`, `p2 = (0,1)` the ratio is
`(1 + 1 - 2)/√4 = 0 ∈ [-1, 1]`, and `angle` returns it. -/
theorem angle_eq_cosLawRatio_witness :
    -1 ≤ cosLawRatio (1, 0) (0, 0) (0, 1) ∧ cosLawRatio (1, 0) (0, 0) (0, 1) ≤ 1 ∧
    angle (1, 0) (0, 0) (0, 1) = cosLawRatio (1, 0) (0, 0) (0, 1) := by
  have hr : cosLawRatio (1, 0) (0, 0) (0, 1) = 0 := by
    unfold cosLawRatio
    norm_num
  have h1 : -1 ≤ cosLawRatio (1, 0) (0, 0) (0, 1) := by rw [hr]; norm_num
  have h2 : cosLawRatio (1, 0) (0, 0) (0, 1) ≤ 1 := by rw [hr]; norm_num
  exact ⟨h1, h2, angle_eq_cosLawRatio (1, 0) (0, 0) (0, 1) h1 h2⟩

/-! ### Helper lemmas for the merge-loop invariant (C2) -/

lemma getD_set_self {α : Type} (l : List α) (i : Nat) (v dflt : α) (h : i < l.length) :
    (l.set i v).getD i dflt = v := by
  rw [List.getD_eq_getElem?_getD, List.getElem?_set_self h]
  rfl

lemma getD_set_ne {α : Type} (l : List α) {i j : Nat} (v dflt : α) (h : i ≠ j) :
    (l.set i v).getD j dflt = l.getD j dflt := by
  rw [List.getD_eq_getElem?_getD, List.getD_eq_getElem?_getD, List.getElem?_set_ne h]

lemma headD_mem {α : Type} (l : List α) (dflt : α) (h : l ≠ []) : l.headD dflt ∈ l := by
  cases l with
  | nil => exact absurd rfl h
  | cons a t => simp

lemma getD_zero_mem {α : Type} (l : List α) (dflt : α) (h : l ≠ []) : l.getD 0 dflt ∈ l := by
  cases l with
  | nil => exact absurd rfl h
  | cons a t => simp

/-- Tails of distinct active routes are disjoint when the flattened tails have
no duplicates. -/
lemma flatten_nodup_disjoint {f : Nat → List Nat} :
    ∀ {l : List Nat}, ((l.map f).flatten).Nodup →
    ∀ {a b : Nat}, a ∈ l → b ∈ l → a ≠ b →
    ∀ {x : Nat}, x ∈ f a → x ∈ f b → False := by
  intro l
  induction l with
  | nil => intro _ a b ha; simp at ha
  | cons h t ih =>
    intro hnd a b ha hb hab x hxa hxb
    rw [List.map_cons, List.flatten_cons, List.nodup_append] at hnd
    obtain ⟨_, hndt, hdisj⟩ := hnd
    rcases List.mem_cons.mp ha with ha' | ha' <;>
      rcases List.mem_cons.mp hb with hb' | hb'
    · exact hab (ha'.trans hb'.symm)
    · subst ha'
      exact hdisj hxa (List.mem_flatten_of_mem (List.mem_map_of_mem f hb') hxb)
    · subst hb'
      exact hdisj hxb (List.mem_flatten_of_mem (List.mem_map_of_mem f ha') hxa)
    · exact ih hndt ha' hb' hab hxa hxb

/-- Pulling one element's block out of a flattened map. -/
lemma flatten_map_erase_perm {f : Nat → List Nat} :
    ∀ {l : List Nat} {b : Nat}, b ∈ l →
    ((l.map f).flatten).Perm (f b ++ (((l.erase b).map f).flatten)) := by
  intro l
  induction l with
  | nil => intro b hb; simp at hb
  | cons h t ih =>
    intro b hb
    by_cases hbh : h = b
    · subst hbh
      rw [List.erase_cons_head, List.map_cons, List.flatten_cons]
    · have hbt : b ∈ t := by
        rcases List.mem_cons.mp hb with h' | h'
        · exact absurd h'.symm hbh
        · exact h'
      rw [List.erase_cons_tail (by simpa using hbh)]
      rw [List.map_cons, List.flatten_cons, List.map_cons, List.flatten_cons]
      calc f h ++ (t.map f).flatten
          ~ f h ++ (f b ++ ((t.erase b).map f).flatten) := (ih hbt).append_left (f h)
        _ = (f h ++ f b) ++ ((t.erase b).map f).flatten := by rw [List.append_assoc]
        _ ~ (f b ++ f h) ++ ((t.erase b).map f).flatten :=
            (List.perm_append_comm).append_right _
        _ = f b ++ (f h ++ ((t.erase b).map f).flatten) := by rw [List.append_assoc]

/-- Flatten congruence for pointwise-permuted blocks. -/
lemma flatten_map_congr_perm {f g : Nat → List Nat} :
    ∀ {l : List Nat}, (∀ id ∈ l, (f id).Perm (g id)) →
    ((l.map f).flatten).Perm ((l.map g).flatten) := by
  intro l
  induction l with
  | nil => intro _; simp
  | cons h t ih =>
    intro hp
    rw [List.map_cons, List.flatten_cons, List.map_cons, List.flatten_cons]
    exact (hp h (by simp)).append (ih (fun id hid => hp id (by simp [hid])))

/-- Flattening is monotone with respect to sublists. -/
lemma flatten_sublist_of_sublist {α : Type} :
    ∀ {l₁ l₂ : List (List α)}, l₁ <+ l₂ → l₁.flatten <+ l₂.flatten := by
  intro l₁ l₂ h
  induction h with
  | slnil => exact List.Sublist.refl _
  | cons a h ih =>
    rw [List.flatten_cons]
    exact ih.trans (List.sublist_append_right _ _)
  | cons₂ a h ih =>
    rw [List.flatten_cons, List.flatten_cons]
    exact ih.append_left a

lemma spliceRemove_of_mem {l : List Nat} {b : Nat} (h : b ∈ l) :
    spliceRemove l b = l.erase b := if_pos h

lemma getStart_mem_tail {p : CWProb} {st : Engine} {id : Nat}
    (h : routeForm p st id) : getStart (getRoute st id) ∈ routeTail st id := by
  obtain ⟨t, ht, htne⟩ := h
  rw [routeTail, ht]
  cases t with
  | nil => exact absurd rfl htne
  | cons x t' => simp [getStart]

lemma getEnd_mem_tail {p : CWProb} {st : Engine} {id : Nat}
    (h : routeForm p st id) : getEnd (getRoute st id) ∈ routeTail st id := by
  obtain ⟨t, ht, htne⟩ := h
  rw [routeTail, ht, getEnd_eq_getLast _ (by simp), List.getLast_cons htne]
  simpa using List.getLast_mem htne

/-- **Preservation by a merge.**  If both routes are active and distinct, a
`joinRoutes` call preserves the full merge-loop invariant (in the infeasible
case it is a no-op). -/
lemma joinRoutes_inv (p : CWProb) (st : Engine) (a b : Nat)
    (hcust : p.customers.Nodup) (hInv : EngineInv p st)
    (ha : a ∈ st.solutions) (hb : b ∈ st.solutions) (hab : a ≠ b) :
    EngineInv p (joinRoutes p st a b) := by
  by_cases hv : verifyRouteJoin p.dist p.depot p.maxDistance (getRoute st a) (getRoute st b) = true
  case neg => rw [joinRoutes, if_neg hv]; exact hInv
  obtain ⟨tA, htA, htAne⟩ := hInv.form a ha
  obtain ⟨tB, htB, htBne⟩ := hInv.form b hb
  have hbla : a < st.store.length := hInv.bound a ha
  have hstore : (joinRoutes p st a b).store =
      st.store.set a (joinRoute (getRoute st a) (getRoute st b)) := by
    rw [joinRoutes, if_pos hv]
  have hsolu : (joinRoutes p st a b).solutions = st.solutions.erase b := by
    rw [joinRoutes, if_pos hv]
    exact spliceRemove_of_mem hb
  have hjoined : (joinRoutes p st a b).joined = a :: b :: st.joined := by
    rw [joinRoutes, if_pos hv]
  have hsav : (joinRoutes p st a b).savings = st.savings := by
    rw [joinRoutes, if_pos hv]
  have hga : getRoute (joinRoutes p st a b) a = p.depot :: (tA ++ tB) := by
    rw [getRoute, hstore, getD_set_self _ _ _ _ hbla, joinRoute, htA, htB]
    simp
  have hgne : ∀ id, id ≠ a → getRoute (joinRoutes p st a b) id = getRoute st id := by
    intro id hid
    rw [getRoute, hstore, getD_set_ne _ _ _ (fun e => hid e.symm)]
    rfl
  have htailSa : routeTail (joinRoutes p st a b) a = tA ++ tB := by
    rw [routeTail, hga]
    rfl
  have htailS : ∀ id, id ≠ a → routeTail (joinRoutes p st a b) id = routeTail st id := by
    intro id hid
    rw [routeTail, hgne id hid, routeTail]
  have htailA : routeTail st a = tA := by rw [routeTail, htA]; rfl
  have htailB : routeTail st b = tB := by rw [routeTail, htB]; rfl
  have hform2 : ∀ id, routeForm p st id → routeForm p (joinRoutes p st a b) id := by
    intro id hf
    by_cases hida : id = a
    · subst hida
      exact ⟨tA ++ tB, hga, by simp [htAne]⟩
    · obtain ⟨t, ht, htne⟩ := hf
      exact ⟨t, by rw [hgne id hida, ht], htne⟩
  have haeb : a ∈ st.solutions.erase b := hInv.nodupSol.mem_erase_iff.mpr ⟨hab, ha⟩
  refine ⟨⟨?_, ?_, ?_, ?_⟩, ?_, ?_⟩
  · -- solutions stay duplicate-free
    rw [hsolu]
    exact List.Nodup.erase b hInv.nodupSol
  · -- store bounds
    intro id hid
    rw [hsolu] at hid
    rw [hstore, List.length_set]
    exact hInv.bound id (List.erase_subset _ _ hid)
  · -- canonical route form
    intro id hid
    rw [hsolu] at hid
    exact hform2 id (hInv.form id (List.erase_subset _ _ hid))
  · -- the partition of customers
    unfold partitionHolds
    rw [hsolu]
    have hndeb : (st.solutions.erase b).Nodup := List.Nodup.erase b hInv.nodupSol
    have hmapsame : ((st.solutions.erase b).erase a).map (routeTail (joinRoutes p st a b)) =
        ((st.solutions.erase b).erase a).map (routeTail st) := by
      apply List.map_congr_left
      intro id hid
      exact htailS id (hndeb.mem_erase_iff.mp hid).1
    calc ((st.solutions.erase b).map (routeTail (joinRoutes p st a b))).flatten
        ~ routeTail (joinRoutes p st a b) a ++
            (((st.solutions.erase b).erase a).map (routeTail (joinRoutes p st a b))).flatten :=
          flatten_map_erase_perm haeb
      _ = (tA ++ tB) ++ (((st.solutions.erase b).erase a).map (routeTail st)).flatten := by
          rw [htailSa, hmapsame]
      _ ~ (tB ++ tA) ++ (((st.solutions.erase b).erase a).map (routeTail st)).flatten :=
          List.Perm.append_right _ List.perm_append_comm
      _ = tB ++ (tA ++ (((st.solutions.erase b).erase a).map (routeTail st)).flatten) := by
          rw [List.append_assoc]
      _ = routeTail st b ++ (routeTail st a ++
            (((st.solutions.erase b).erase a).map (routeTail st)).flatten) := by
          rw [htailA, htailB]
      _ ~ routeTail st b ++ ((st.solutions.erase b).map (routeTail st)).flatten :=
          List.Perm.append_left _ (flatten_map_erase_perm haeb).symm
      _ ~ (st.solutions.map (routeTail st)).flatten := (flatten_map_erase_perm hb).symm
      _ ~ p.customers := hInv.partition
  · -- every marked route's customers live in a marked active route
    intro m hm
    rw [hjoined] at hm
    rw [hsolu, hjoined]
    by_cases hma : m = a
    · subst hma
      exact ⟨m, haeb, by simp, fun x hx => hx⟩
    · by_cases hmb : m = b
      · subst hmb
        refine ⟨a, haeb, by simp, fun x hx => ?_⟩
        rw [htailS m hma, htailB] at hx
        rw [htailSa]
        exact List.mem_append_right tA hx
      · have hm2 : m ∈ st.joined := by
          rcases List.mem_cons.mp hm with h2 | h2
          · exact absurd h2 hma
          · rcases List.mem_cons.mp h2 with h3 | h3
            · exact absurd h3 hmb
            · exact h3
        obtain ⟨z, hzs, hzj, hsub⟩ := hInv.marked m hm2
        by_cases hzb : z = b
        · subst hzb
          refine ⟨a, haeb, by simp, fun x hx => ?_⟩
          rw [htailS m hma] at hx
          have hxz := hsub x hx
          rw [htailB] at hxz
          rw [htailSa]
          exact List.mem_append_right tA hxz
        · refine ⟨z, hInv.nodupSol.mem_erase_iff.mpr ⟨hzb, hzs⟩, by simp [hzj],
            fun x hx => ?_⟩
          rw [htailS m hma] at hx
          have hxz := hsub x hx
          by_cases hza : z = a
          · subst hza
            rw [htailA] at hxz
            rw [htailSa]
            exact List.mem_append_left tB hxz
          · rw [htailS z hza]
            exact hxz
  · -- the savings entries stay well-formed
    intro e he
    rw [hsav] at he
    obtain ⟨hne, hA, hB, hfA, hfB⟩ := hInv.savOk e he
    rw [hsolu, hjoined]
    refine ⟨hne, ?_, ?_, hform2 _ hfA, hform2 _ hfB⟩
    · intro hAn
      simp only [List.mem_cons, not_or] at hAn
      exact hInv.nodupSol.mem_erase_iff.mpr ⟨hAn.2.1, hA hAn.2.2⟩
    · intro hBn
      simp only [List.mem_cons, not_or] at hBn
      exact hInv.nodupSol.mem_erase_iff.mpr ⟨hBn.2.1, hB hBn.2.2⟩

lemma joinRoutes_savings (p : CWProb) (st : Engine) (a b : Nat) :
    (joinRoutes p st a b).savings = st.savings := by
  rw [joinRoutes]
  split <;> rfl

lemma processEntry_savings (p : CWProb) (e : SEntry) (st : Engine) :
    (processEntry p e st).savings = st.savings := by
  rw [processEntry]
  split_ifs <;> first
    | rfl
    | exact joinRoutes_savings _ _ _ _

/-- **Preservation by one savings-list iteration**, including the two fallback
branches against `solutions[0]`.  The endpoint-identity guards cannot make the
engine merge a route with itself: the matching endpoint is a customer that lives
in exactly one active route, and tracing it through the marked-route witness
forces the two sides of the merge to be distinct. -/
lemma processEntry_inv (p : CWProb) (e : SEntry) (st : Engine)
    (hcust : p.customers.Nodup) (hInv : EngineInv p st) (he : e ∈ st.savings) :
    EngineInv p (processEntry p e st) := by
  obtain ⟨hne, hA, hB, hfA, hfB⟩ := hInv.savOk e he
  rw [processEntry]
  by_cases h1 : e.routeA ∉ st.joined ∧ e.routeB ∉ st.joined
  · rw [if_pos h1]
    exact joinRoutes_inv p st _ _ hcust hInv (hA h1.1) (hB h1.2) hne
  · rw [if_neg h1]
    by_cases h2 : e.routeA ∉ st.joined
    · rw [if_pos h2]
      have hBj : e.routeB ∈ st.joined := by
        by_contra hBn
        exact h1 ⟨h2, hBn⟩
      by_cases h3 : st.solutions ≠ [] ∧
          getStart (getRoute st (st.solutions.headD 0)) = getStart (getRoute st e.routeB)
      · rw [if_pos h3]
        have hh0 : st.solutions.headD 0 ∈ st.solutions := headD_mem _ _ h3.1
        have hA2 : e.routeA ∈ st.solutions := hA h2
        have hab : e.routeA ≠ st.solutions.headD 0 := by
          intro heq
          obtain ⟨z, hzs, hzj, hsub⟩ := hInv.marked e.routeB hBj
          have hx2 : getStart (getRoute st e.routeB) ∈ routeTail st z :=
            hsub _ (getStart_mem_tail hfB)
          have hstart_eq : getStart (getRoute st e.routeA) =
              getStart (getRoute st e.routeB) := by
            rw [heq]
            exact h3.2
          have hx3 : getStart (getRoute st e.routeB) ∈ routeTail st e.routeA :=
            hstart_eq ▸ getStart_mem_tail hfA
          have hnd : ((st.solutions.map (routeTail st)).flatten).Nodup :=
            (hInv.partition.nodup_iff).mpr hcust
          have hzA : e.routeA ≠ z := fun hzz => h2 (hzz ▸ hzj)
          exact flatten_nodup_disjoint hnd hA2 hzs hzA hx3 hx2
        exact joinRoutes_inv p st _ _ hcust hInv hA2 hh0 hab
      · rw [if_neg h3]
        exact hInv
    · rw [if_neg h2]
      by_cases h4 : e.routeB ∉ st.joined
      · rw [if_pos h4]
        have hAj : e.routeA ∈ st.joined := not_not.mp h2
        by_cases h5 : st.solutions ≠ [] ∧
            getEnd (getRoute st (st.solutions.headD 0)) = getEnd (getRoute st e.routeA)
        · rw [if_pos h5]
          have hh0 : st.solutions.headD 0 ∈ st.solutions := headD_mem _ _ h5.1
          have hB2 : e.routeB ∈ st.solutions := hB h4
          have hab : st.solutions.headD 0 ≠ e.routeB := by
            intro heq
            obtain ⟨z, hzs, hzj, hsub⟩ := hInv.marked e.routeA hAj
            have hx2 : getEnd (getRoute st e.routeA) ∈ routeTail st z :=
              hsub _ (getEnd_mem_tail hfA)
            have hend_eq : getEnd (getRoute st e.routeB) =
                getEnd (getRoute st e.routeA) := by
              rw [← heq]
              exact h5.2
            have hx3 : getEnd (getRoute st e.routeA) ∈ routeTail st e.routeB :=
              hend_eq ▸ getEnd_mem_tail hfB
            have hnd : ((st.solutions.map (routeTail st)).flatten).Nodup :=
              (hInv.partition.nodup_iff).mpr hcust
            have hzB : e.routeB ≠ z := fun hzz => h4 (hzz ▸ hzj)
            exact flatten_nodup_disjoint hnd hB2 hzs hzB hx3 hx2
          exact joinRoutes_inv p st _ _ hcust hInv hh0 hB2 hab
        · rw [if_neg h5]
          exact hInv
      · rw [if_neg h4]
        exact hInv

/-- Preservation over the whole `for (const savings of this.savings)` loop. -/
lemma processSavings_inv (p : CWProb) (hcust : p.customers.Nodup) :
    ∀ (entries : List SEntry) (st : Engine), EngineInv p st →
    (∀ e ∈ entries, e ∈ st.savings) → EngineInv p (processSavings p entries st) := by
  intro entries
  induction entries with
  | nil => intro st hInv _; exact hInv
  | cons e rest ih =>
    intro st hInv hmem
    rw [processSavings]
    apply ih
    · exact processEntry_inv p e st hcust hInv (hmem e (by simp))
    · intro e2 he2
      rw [processEntry_savings]
      exact hmem e2 (by simp [he2])

lemma eq_cons_of_perm_head {l t : List Nat} {dep : Nat}
    (hp : l.Perm (dep :: t)) (hh : l.head? = some dep) :
    ∃ t2, l = dep :: t2 ∧ t2.Perm t := by
  cases l with
  | nil => simp at hh
  | cons x l2 =>
    have hx : x = dep := by simpa using hh
    subst hx
    exact ⟨l2, rfl, hp.cons_inv⟩

/-- Characterisation of the store after the per-round
`solutions.forEach(s => s.optimise())` pass. -/
lemma foldl_optimise_store (d : Nat → Nat → ℚ) (dep : Nat) :
    ∀ (l : List Nat) (store : List (List Nat)), l.Nodup →
    (∀ id ∈ l, id < store.length) →
    (l.foldl (fun s j => s.set j (optimise d dep 100 (s.getD j []))) store).length =
        store.length ∧
    (∀ id, (l.foldl (fun s j => s.set j (optimise d dep 100 (s.getD j []))) store).getD id [] =
      if id ∈ l then optimise d dep 100 (store.getD id []) else store.getD id []) := by
  intro l
  induction l with
  | nil =>
    intro store _ _
    exact ⟨rfl, fun id => by simp⟩
  | cons h t ih =>
    intro store hnd hbd
    have hhlen : h < store.length := hbd h (by simp)
    have hlen1 : (store.set h (optimise d dep 100 (store.getD h []))).length = store.length := by
      simp
    have ih2 := ih (store.set h (optimise d dep 100 (store.getD h [])))
      (List.Nodup.of_cons hnd)
      (fun id hid => by rw [hlen1]; exact hbd id (by simp [hid]))
    rw [List.foldl_cons]
    refine ⟨by rw [ih2.1, hlen1], ?_⟩
    intro id
    rw [ih2.2 id]
    by_cases hidt : id ∈ t
    · have hidh : id ≠ h := fun e => (List.nodup_cons.mp hnd).1 (e ▸ hidt)
      rw [if_pos hidt, if_pos (by simp [hidt]),
        getD_set_ne _ _ _ (fun e => hidh e.symm)]
    · rw [if_neg hidt]
      by_cases hidh : id = h
      · subst hidh
        rw [if_pos (by simp), getD_set_self _ _ _ _ hhlen]
      · rw [if_neg (by simp [hidh, hidt]), getD_set_ne _ _ _ (fun e => hidh e.symm)]

/-- The optional per-round `optimise` pass preserves the structural invariant
(it permutes every active route's customers in place, keeps the depot first,
and leaves the rest of the state alone). -/
lemma optimiseAll_core (p : CWProb) (st : Engine) (hcore : CoreInv p st) :
    CoreInv p (optimiseAll p st) := by
  have hch := foldl_optimise_store p.dist p.depot st.solutions st.store
    hcore.nodupSol hcore.bound
  have hget : ∀ id, getRoute (optimiseAll p st) id =
      if id ∈ st.solutions then optimise p.dist p.depot 100 (getRoute st id)
      else getRoute st id := by
    intro id
    rw [getRoute]
    show (st.solutions.foldl _ st.store).getD id [] = _
    rw [hch.2 id]
    rfl
  have hroute : ∀ id ∈ st.solutions, ∃ t t2, getRoute st id = p.depot :: t ∧ t ≠ [] ∧
      getRoute (optimiseAll p st) id = p.depot :: t2 ∧ t2.Perm t := by
    intro id hid
    obtain ⟨t, ht, htne⟩ := hcore.form id hid
    obtain ⟨hperm, hhead⟩ := optimiseAux_perm_head p.dist p.depot 100 0 (getRoute st id)
    rw [ht] at hperm hhead
    obtain ⟨t2, heq, hp2⟩ := eq_cons_of_perm_head
      (l := optimise p.dist p.depot 100 (p.depot :: t))
      (by rw [optimise]; exact hperm) (by rw [optimise, hhead]; rfl)
    refine ⟨t, t2, ht, htne, ?_, hp2⟩
    rw [hget id, if_pos hid, ht, heq]
  refine ⟨hcore.nodupSol, ?_, ?_, ?_⟩
  · intro id hid
    show id < (st.solutions.foldl _ st.store).length
    rw [hch.1]
    exact hcore.bound id hid
  · intro id hid
    obtain ⟨t, t2, _, htne, hopt, hp2⟩ := hroute id hid
    exact ⟨t2, hopt, fun h0 => htne (List.Perm.eq_nil (h0 ▸ hp2).symm)⟩
  · unfold partitionHolds
    refine List.Perm.trans ?_ hcore.partition
    apply flatten_map_congr_perm
    intro id hid
    obtain ⟨t, t2, ht, _, hopt, hp2⟩ := hroute id hid
    rw [routeTail, routeTail, ht, hopt]
    simpa using hp2

/-- Every savings entry produced by `findAllRouteSavingsPairs` pairs two
distinct ids taken from the current active set. -/
lemma findAll_mem (p : CWProb) (w : CWWeights) (st : Engine) :
    ∀ e ∈ findAllRouteSavingsPairs p w st,
    e.routeA ∈ st.solutions ∧ e.routeB ∈ st.solutions ∧ e.routeA ≠ e.routeB := by
  intro e he
  rw [findAllRouteSavingsPairs, List.mem_mergeSort, List.mem_flatten] at he
  obtain ⟨li, hli, heli⟩ := he
  rw [List.mem_map] at hli
  obtain ⟨r, hr, rfl⟩ := hli
  rw [List.mem_filterMap] at heli
  obtain ⟨o, ho, hoe⟩ := heli
  by_cases hor : o = r
  · rw [if_pos hor] at hoe
    exact absurd hoe (by simp)
  · rw [if_neg hor] at hoe
    simp only [mkEntry] at hoe
    by_cases hc : w.score (getEnd (getRoute st o)) (getStart (getRoute st r)) <
        w.score (getEnd (getRoute st r)) (getStart (getRoute st o))
    · simp only [if_pos hc] at hoe
      split_ifs at hoe with hthr hver
      rw [Option.some.injEq] at hoe
      subst hoe
      exact ⟨hr, ho, fun h0 => hor h0.symm⟩
    · simp only [if_neg hc] at hoe
      split_ifs at hoe with hthr hver
      rw [Option.some.injEq] at hoe
      subst hoe
      exact ⟨ho, hr, hor⟩

/-- Resetting the marks and recomputing the savings list restores the full
invariant from the structural part. -/
lemma refresh_inv (p : CWProb) (w : CWWeights) (st2 : Engine) (hcore : CoreInv p st2) :
    EngineInv p { st2 with joined := [], savings := findAllRouteSavingsPairs p w st2 } := by
  refine ⟨⟨hcore.nodupSol, hcore.bound, hcore.form, hcore.partition⟩, ?_, ?_⟩
  · intro m hm
    simp at hm
  · intro e he
    obtain ⟨hA, hB, hne⟩ := findAll_mem p w st2 e he
    exact ⟨hne, fun _ => hA, fun _ => hB, hcore.form _ hA, hcore.form _ hB⟩

/-- One round of the merge loop preserves the invariant. -/
lemma roundStep_inv (p : CWProb) (w : CWWeights) (opt : Bool) (st : Engine)
    (hcust : p.customers.Nodup) (hInv : EngineInv p st) :
    EngineInv p (roundStep p w opt st) := by
  have h1 : EngineInv p (processSavings p st.savings st) :=
    processSavings_inv p hcust st.savings st hInv (fun _ he => he)
  rw [roundStep]
  cases opt
  · rw [if_neg (by simp)]
    exact refresh_inv p w _ h1.toCoreInv
  · rw [if_pos rfl]
    exact refresh_inv p w _ (optimiseAll_core p _ h1.toCoreInv)

/-- The whole fuelled `while` loop preserves the invariant. -/
lemma solveLoop_inv (p : CWProb) (w : CWWeights) (opt : Bool)
    (hcust : p.customers.Nodup) :
    ∀ (fuel : Nat) (st : Engine), EngineInv p st →
    EngineInv p (solveLoop p w opt fuel st) := by
  intro fuel
  induction fuel with
  | zero => intro st h; exact h
  | succ n ih =>
    intro st h
    rw [solveLoop]
    by_cases hs : st.savings = []
    · rw [if_pos hs]
      exact h
    · rw [if_neg hs]
      exact ih _ (roundStep_inv p w opt st hcust h)

lemma getD_map_lt {α β : Type} (f : α → β) (l : List α) (i : Nat) (h : i < l.length)
    (d : β) (d2 : α) : (l.map f).getD i d = f (l.getD i d2) := by
  rw [List.getD_eq_getElem?_getD, List.getElem?_map, List.getElem?_eq_getElem h,
    List.getD_eq_getElem?_getD, List.getElem?_eq_getElem h]
  rfl

lemma map_getD_range {α : Type} (d2 : α) :
    ∀ (l : List α), (List.range l.length).map (fun i => l.getD i d2) = l := by
  intro l
  induction l with
  | nil => simp
  | cons c cs ih =>
    rw [List.length_cons, List.range_succ_eq_map, List.map_cons, List.map_map]
    have hf : ((fun i => (c :: cs).getD i d2) ∘ Nat.succ) = fun i => cs.getD i d2 := by
      funext i
      simp
    rw [hf, ih]
    simp

lemma flatten_map_singleton {α β : Type} (g : α → β) :
    ∀ (l : List α), (l.map (fun x => [g x])).flatten = l.map g := by
  intro l
  induction l with
  | nil => rfl
  | cons c cs ih => simp [ih]

/-- The one-singleton-route-per-customer construction satisfies the invariant. -/
lemma initState_inv (p : CWProb) : EngineInv p (initState p) := by
  have hget : ∀ id, id < p.customers.length →
      getRoute (initState p) id = [p.depot, p.customers.getD id 0] := by
    intro id hid
    rw [getRoute]
    show ((p.customers.map (fun c => [p.depot, c])).getD id []) = _
    rw [getD_map_lt _ _ _ hid _ 0]
  refine ⟨⟨?_, ?_, ?_, ?_⟩, ?_, ?_⟩
  · exact List.nodup_range _
  · intro id hid
    show id < (p.customers.map _).length
    rw [List.length_map]
    exact List.mem_range.mp hid
  · intro id hid
    exact ⟨[p.customers.getD id 0], hget id (List.mem_range.mp hid), by simp⟩
  · unfold partitionHolds
    have hmaps : (List.range p.customers.length).map (routeTail (initState p)) =
        (List.range p.customers.length).map (fun i => [p.customers.getD i 0]) := by
      apply List.map_congr_left
      intro i hi
      rw [routeTail, hget i (List.mem_range.mp hi)]
      rfl
    show ((List.range p.customers.length).map (routeTail (initState p))).flatten.Perm _
    rw [hmaps, flatten_map_singleton, map_getD_range]
  · intro m hm
    simp [initState] at hm
  · intro e he
    simp [initState] at he

/-- The state after the initial savings computation satisfies the invariant. -/
lemma startState_inv (p : CWProb) (w : CWWeights) : EngineInv p (startState p w) :=
  refresh_inv p w (initState p) (initState_inv p).toCoreInv

/-- **C2.** Under distinct customers and a depot distinct from every customer:
the one-singleton-route-per-customer start state satisfies the partition
invariant; every `joinRoutes` merge of two distinct active routes preserves it;
every savings-list iteration (including the fallback merges against
`solutions[0]`) preserves it; it holds after every round of the merge loop; and
consequently the non-depot points across all routes returned by `solve` contain
no duplicates and all come from the input customers. -/
theorem solve_partition (p : CWProb) (w : CWWeights) (opt : Bool)
    (hcust : p.customers.Nodup) (hdep : p.depot ∉ p.customers) :
    (∀ st a b, EngineInv p st → a ∈ st.solutions → b ∈ st.solutions → a ≠ b →
      EngineInv p (joinRoutes p st a b)) ∧
    (∀ st e, EngineInv p st → e ∈ st.savings → EngineInv p (processEntry p e st)) ∧
    EngineInv p (startState p w) ∧
    (∀ fuel, partitionHolds p (solveLoop p w opt fuel (startState p w))) ∧
    ((solve p w opt).map (fun pts => pts.filter (fun x => decide (x ≠ p.depot)))).flatten.Nodup ∧
    (∀ x ∈ ((solve p w opt).map
        (fun pts => pts.filter (fun x => decide (x ≠ p.depot)))).flatten,
      x ∈ p.customers) := by
  have hstart := startState_inv p w
  have hF : EngineInv p (solveLoop p w opt p.customers.length (startState p w)) :=
    solveLoop_inv p w opt hcust _ _ hstart
  set stF := solveLoop p w opt p.customers.length (startState p w) with hstFdef
  have hfilter_eq : ∀ id ∈ stF.solutions,
      (getRoute stF id).filter (fun x => decide (x ≠ p.depot)) = routeTail stF id := by
    intro id hid
    obtain ⟨t, ht, _⟩ := hF.form id hid
    have htail : routeTail stF id = t := by rw [routeTail, ht]; rfl
    have hsubt : ∀ x ∈ t, x ∈ p.customers := by
      intro x hx
      have hxf : x ∈ (stF.solutions.map (routeTail stF)).flatten :=
        List.mem_flatten_of_mem (List.mem_map_of_mem _ hid) (by rw [htail]; exact hx)
      exact (hF.partition.mem_iff).mp hxf
    rw [ht, htail]
    have h1 : (p.depot :: t).filter (fun x => decide (x ≠ p.depot)) =
        t.filter (fun x => decide (x ≠ p.depot)) := by
      simp [List.filter_cons]
    rw [h1]
    apply List.filter_eq_self.mpr
    intro x hx
    simp only [decide_eq_true_eq]
    intro hxe
    exact hdep (hxe ▸ hsubt x hx)
  have hNodupFull : ((stF.solutions.map (routeTail stF)).flatten).Nodup :=
    (hF.partition.nodup_iff).mpr hcust
  have hO : (solve p w opt).Perm
      ((stF.solutions.map (fun id => getRoute stF id)).filter
        (fun pts => decide (totalDistance p.dist p.depot pts < p.maxDistance))) :=
    List.mergeSort_perm _ _
  have hflatO : (((solve p w opt).map
      (fun pts => pts.filter (fun x => decide (x ≠ p.depot)))).flatten).Perm
      ((((stF.solutions.map (fun id => getRoute stF id)).filter
          (fun pts => decide (totalDistance p.dist p.depot pts < p.maxDistance))).map
        (fun pts => pts.filter (fun x => decide (x ≠ p.depot)))).flatten) :=
    (hO.map _).flatten
  have hmm : ((stF.solutions.map (fun id => getRoute stF id)).map
      (fun pts => pts.filter (fun x => decide (x ≠ p.depot)))) =
      stF.solutions.map (routeTail stF) := by
    rw [List.map_map]
    exact List.map_congr_left (fun id hid => hfilter_eq id hid)
  have hflat_sub : ((((stF.solutions.map (fun id => getRoute stF id)).filter
      (fun pts => decide (totalDistance p.dist p.depot pts < p.maxDistance))).map
      (fun pts => pts.filter (fun x => decide (x ≠ p.depot)))).flatten) <+
      ((stF.solutions.map (routeTail stF)).flatten) := by
    rw [← hmm]
    exact flatten_sublist_of_sublist (List.Sublist.map _ (List.filter_sublist _))
  have hnodup_mid := List.Nodup.sublist hflat_sub hNodupFull
  refine ⟨fun st a b hI ha hb hab => joinRoutes_inv p st a b hcust hI ha hb hab,
    fun st e hI he => processEntry_inv p e st hcust hI he,
    hstart,
    fun fuel => (solveLoop_inv p w opt hcust fuel _ hstart).partition,
    (hflatO.nodup_iff).mpr hnodup_mid,
    ?_⟩
  intro x hx
  have hx2 := hflatO.mem_iff.mp hx
  have hx3 := hflat_sub.subset hx2
  exact (hF.partition.mem_iff).mp hx3

/-- Witness for C2 at the concrete single-customer instance. -/
theorem solve_partition_witness :
    (∀ st a b, EngineInv exProb st → a ∈ st.solutions → b ∈ st.solutions → a ≠ b →
      EngineInv exProb (joinRoutes exProb st a b)) ∧
    (∀ st e, EngineInv exProb st → e ∈ st.savings →
      EngineInv exProb (processEntry exProb e st)) ∧
    EngineInv exProb (startState exProb exWeights) ∧
    (∀ fuel, partitionHolds exProb
      (solveLoop exProb exWeights false fuel (startState exProb exWeights))) ∧
    ((solve exProb exWeights false).map
      (fun pts => pts.filter (fun x => decide (x ≠ exProb.depot)))).flatten.Nodup ∧
    (∀ x ∈ ((solve exProb exWeights false).map
        (fun pts => pts.filter (fun x => decide (x ≠ exProb.depot)))).flatten,
      x ∈ exProb.customers) :=
  solve_partition exProb exWeights false (by decide) (by decide)

/-! ### NaN handling in the savings pipeline (C3) -/

@[simp] lemma nan_add (x : JSNum) : JSNum.nan + x = JSNum.nan := by cases x <;> rfl

@[simp] lemma add_nan (x : JSNum) : x + JSNum.nan = JSNum.nan := by cases x <;> rfl

@[simp] lemma nan_mul (x : JSNum) : JSNum.nan * x = JSNum.nan := by cases x <;> rfl

@[simp] lemma mul_nan (x : JSNum) : x * JSNum.nan = JSNum.nan := by cases x <;> rfl

@[simp] lemma nan_div (x : JSNum) : JSNum.nan / x = JSNum.nan := by cases x <;> rfl

@[simp] lemma div_nan (x : JSNum) : x / JSNum.nan = JSNum.nan := by cases x <;> rfl

@[simp] lemma nan_sub (x : JSNum) : JSNum.nan - x = JSNum.nan := by cases x <;> rfl

@[simp] lemma sub_nan (x : JSNum) : x - JSNum.nan = JSNum.nan := by cases x <;> rfl

@[simp] lemma abs_nan : JSNum.abs JSNum.nan = JSNum.nan := rfl

@[simp] lemma nan_lt (x : JSNum) : JSNum.lt JSNum.nan x = false := by cases x <;> rfl

@[simp] lemma lt_nan (x : JSNum) : JSNum.lt x JSNum.nan = false := by cases x <;> rfl

@[simp] lemma nan_max (x : JSNum) : JSNum.max JSNum.nan x = JSNum.nan := by
  simp [JSNum.max]

@[simp] lemma max_nan (x : JSNum) : JSNum.max x JSNum.nan = JSNum.nan := by
  simp [JSNum.max]

/-- A `NaN` angle makes the whole savings score `NaN` (the asymmetry term
poisons the sum, whatever the weights and distances are). -/
lemma calculateSavingsJS_nan (p : JSProb) (w : JSWeights) (ptsA ptsB : List Nat)
    (hang : p.ang (getEnd ptsA) p.depot (getStart ptsB) = JSNum.nan) :
    calculateSavingsJS p w ptsA ptsB = JSNum.nan := by
  rw [calculateSavingsJS]
  rw [hang]
  simp

/-- Any entry `mkEntryJS` produces for an ordered pair of distinct active
routes lands in the sorted savings list. -/
lemma mkEntryJS_mem_findAll (p : JSProb) (w : JSWeights) (store : List (List Nat))
    (sols : List Nat) (r o : Nat) (e : SEntryJS)
    (hr : r ∈ sols) (ho : o ∈ sols) (hor : o ≠ r)
    (hmk : mkEntryJS p w store r o = some e) :
    e ∈ findAllRouteSavingsPairsJS p w store sols := by
  rw [findAllRouteSavingsPairsJS, List.mem_mergeSort, List.mem_flatten]
  refine ⟨_, List.mem_map_of_mem _ hr, ?_⟩
  rw [List.mem_filterMap]
  exact ⟨o, ho, by rw [if_neg hor, hmk]⟩

/-- When the best-orientation score is `NaN`, the threshold test
`savings < minSavings` is false (it never discards the candidate), so the
candidate's fate depends only on the feasibility check. -/
lemma mkEntryJS_of_nan (p : JSProb) (w : JSWeights) (store : List (List Nat)) (r o : Nat)
    (hnan : JSNum.max (calculateSavingsJS p w (store.getD r []) (store.getD o []))
      (calculateSavingsJS p w (store.getD o []) (store.getD r [])) = JSNum.nan)
    (hver : verifyRouteJoin p.dist p.depot p.maxDistance
      (store.getD (savingsOrientA p w store r o) [])
      (store.getD (savingsOrientB p w store r o) []) = true) :
    mkEntryJS p w store r o =
      some ⟨savingsOrientA p w store r o, savingsOrientB p w store r o, JSNum.nan⟩ := by
  rw [mkEntryJS]
  rw [hnan, hver]
  simp

/-- **C3 (amended).**  A candidate whose savings score is `NaN` is *not*
discarded by the minimum-savings threshold test (`NaN < minSavings` is false in
JS), and — whenever its feasibility check passes — it *does* appear in the
sorted candidate list produced by `findAllRouteSavingsPairs`, with its `NaN`
score. -/
theorem nan_savings_not_discarded (p : JSProb) (w : JSWeights) (store : List (List Nat))
    (sols : List Nat) (r o : Nat) (hr : r ∈ sols) (ho : o ∈ sols) (hor : o ≠ r)
    (hnan : JSNum.max (calculateSavingsJS p w (store.getD r []) (store.getD o []))
      (calculateSavingsJS p w (store.getD o []) (store.getD r [])) = JSNum.nan)
    (hver : verifyRouteJoin p.dist p.depot p.maxDistance
      (store.getD (savingsOrientA p w store r o) [])
      (store.getD (savingsOrientB p w store r o) []) = true) :
    JSNum.lt JSNum.nan (JSNum.num w.minSavings) = false ∧
    (⟨savingsOrientA p w store r o, savingsOrientB p w store r o, JSNum.nan⟩ : SEntryJS) ∈
      findAllRouteSavingsPairsJS p w store sols :=
  ⟨rfl, mkEntryJS_mem_findAll p w store sols r o _ hr ho hor
    (mkEntryJS_of_nan p w store r o hnan hver)⟩

/-- The two angle calls of the `nanProb` scenario really fall outside the
`acos` domain (squared distance `a`, respectively `b`, is `0`): customer `1`
has the depot's coordinates `(0, 0)` and customer `2` sits at `(1, 0)`. -/
lemma nanProb_acos_out_of_domain :
    acosArgOutOfDomain 0 0 0 0 1 0 = true ∧ acosArgOutOfDomain 1 0 0 0 0 0 = true := by
  constructor <;> · rw [acosArgOutOfDomain]; norm_num

lemma nanProb_calc1 :
    calculateSavingsJS nanProb nanWeights (nanStore.getD 0 []) (nanStore.getD 1 []) =
      JSNum.nan :=
  calculateSavingsJS_nan _ _ _ _ rfl

lemma nanProb_calc2 :
    calculateSavingsJS nanProb nanWeights (nanStore.getD 1 []) (nanStore.getD 0 []) =
      JSNum.nan :=
  calculateSavingsJS_nan _ _ _ _ rfl

lemma nanProb_orientA : savingsOrientA nanProb nanWeights nanStore 0 1 = 1 := by
  rw [savingsOrientA, nanProb_calc1, nanProb_calc2]
  rfl

lemma nanProb_orientB : savingsOrientB nanProb nanWeights nanStore 0 1 = 0 := by
  rw [savingsOrientB, nanProb_calc1, nanProb_calc2]
  rfl

lemma nanProb_verify :
    verifyRouteJoin nanProb.dist nanProb.depot nanProb.maxDistance
      (nanStore.getD (savingsOrientA nanProb nanWeights nanStore 0 1) [])
      (nanStore.getD (savingsOrientB nanProb nanWeights nanStore 0 1) []) = true := by
  rw [nanProb_orientA, nanProb_orientB]
  norm_num [verifyRouteJoin, totalDistance, getEnd, getStart, nanProb, nanStore]

/-- **C3 counterexample.**  On the concrete two-customer instance whose angle
computation yields `NaN` (customer at the depot's coordinates), the `NaN`-scored
candidate `{routeA := 1, routeB := 0, savings := NaN}` *is* in the sorted
candidate list — the claim that it is excluded, and that a `NaN` score is
discarded by the threshold test, is false on the code (`NaN < minSavings`
evaluates to false, so the discard never fires). -/
theorem nan_candidate_in_savings_list :
    (⟨1, 0, JSNum.nan⟩ : SEntryJS) ∈
      findAllRouteSavingsPairsJS nanProb nanWeights nanStore [0, 1] ∧
    JSNum.lt JSNum.nan (JSNum.num nanWeights.minSavings) = false := by
  have hmk := mkEntryJS_of_nan nanProb nanWeights nanStore 0 1
    (by rw [nanProb_calc1, nanProb_calc2]; rfl) nanProb_verify
  rw [nanProb_orientA, nanProb_orientB] at hmk
  exact ⟨mkEntryJS_mem_findAll nanProb nanWeights nanStore [0, 1] 0 1 _
    (by decide) (by decide) (by decide) hmk, rfl⟩

/-- Witness for the amended C3, applying it on the concrete `NaN` instance. -/
theorem nan_savings_not_discarded_witness :
    JSNum.lt JSNum.nan (JSNum.num nanWeights.minSavings) = false ∧
    (⟨savingsOrientA nanProb nanWeights nanStore 0 1,
      savingsOrientB nanProb nanWeights nanStore 0 1, JSNum.nan⟩ : SEntryJS) ∈
      findAllRouteSavingsPairsJS nanProb nanWeights nanStore [0, 1] :=
  nan_savings_not_discarded nanProb nanWeights nanStore [0, 1] 0 1
    (by decide) (by decide) (by decide)
    (by rw [nanProb_calc1, nanProb_calc2]; rfl) nanProb_verify

end CW
